import Mathlib

/-!
# Verification of the `filets` file-management library

This file gives a shallow embedding, in Lean, of the `Filets` class from the
`filets` repository (`src/unnamed/part_002`), together with theorems settling a
fixed list of claims about its behaviour.

Modelling conventions:

* JavaScript strings are modelled as Lean `String`s (sequences of Unicode
  scalar values); `String.prototype.substring(0, n)` becomes `List.take n`
  on the character list.
* The `node:fs` filesystem collaborator is modelled by a small explicit
  state type `FS` (a finite map from path strings to file/directory nodes);
  every `fs.*Sync` primitive used by the source is given a model definition
  in the `NodeFs` namespace.  Thrown exceptions are modelled by
  `Except String`, the error payload being the message string.
* The `node:path` collaborator (POSIX flavour) is modelled in the
  `NodePath` namespace, following the algorithms of Node's `path.posix`
  implementation (`dirname`, `normalize`, `join`, `parse`).
* `JSON.stringify(data, null, 2)` and `JSON.parse` are modelled by an
  executable pretty-printer and recursive-descent reader over an inductive
  `Json` value type.  JSON numbers are modelled as integers (float-valued
  JSON numbers are outside the scope of this embedding).
-/

set_option maxRecDepth 8000

deriving instance DecidableEq for Except

namespace Filets

/-! ## Character classes used by `sanitizeFilename` (source lines 69-78)

The source is a chain of seven `String.prototype.replace` steps, each with a
global regex whose pattern is a character class, a whitespace run, a hyphen
run, or edge-anchored hyphen runs.  Each step is embedded as a list
transformation below.
-/

/-- The class `[<>:"/\\|?*]` of the first replace step (replaced by `"-"`). -/
def invalidFileChars : List Char := ['<', '>', ':', '"', '/', '\\', '|', '?', '*']

/-- The class `['④""`´]` (apostrophe twice, double quote twice, backtick,
acute accent) of the second replace step (removed).  The source bytes are
`27 27 22 22 60 C2B4`. -/
def quoteChars : List Char :=
  [Char.ofNat 0x27, Char.ofNat 0x27, '"', '"', Char.ofNat 0x60, Char.ofNat 0xB4]

/-- The class `[.,;:!@#$%^&*()_+={}[\]|\\/]` of the third replace step
(removed). -/
def punctChars : List Char :=
  ['.', ',', ';', ':', '!', '@', '#', Char.ofNat 0x24, Char.ofNat 0x25, '^', '&', '*',
   '(', ')', Char.ofNat 0x5F, '+', '=', Char.ofNat 0x7B, Char.ofNat 0x7D, '[', ']',
   '|', '\\', '/']

/-- JavaScript's `\s` character class (ECMA-262 WhiteSpace ∪ LineTerminator). -/
def isJsWhitespace (c : Char) : Bool :=
  c = ' ' || c = '\t' || c = '\n' || c = '\r' || c = Char.ofNat 11 || c = Char.ofNat 12 ||
  c = Char.ofNat 0xA0 || c = Char.ofNat 0x1680 ||
  (0x2000 ≤ c.toNat && c.toNat ≤ 0x200A) ||
  c = Char.ofNat 0x2028 || c = Char.ofNat 0x2029 || c = Char.ofNat 0x202F ||
  c = Char.ofNat 0x205F || c = Char.ofNat 0x3000 || c = Char.ofNat 0xFEFF

/-- `c = '-'`, the class of the fifth and sixth replace steps. -/
def isHyphen (c : Char) : Bool := c = '-'

/-- Replace every maximal run of characters satisfying `p` by the single
character `repl`: the effect of `.replace(/X+/g, repl)` for a class `X`.
The flag `inRun` records whether the previous character was part of a run
(in which case further run characters are dropped rather than replaced). -/
def collapseAux (p : Char → Bool) (repl : Char) (inRun : Bool) : List Char → List Char
  | [] => []
  | c :: rest =>
    if p c then
      if inRun then collapseAux p repl true rest
      else repl :: collapseAux p repl true rest
    else c :: collapseAux p repl false rest

/-- `.replace(/X+/g, repl)` for a character class `X` given by `p`. -/
def collapseRuns (p : Char → Bool) (repl : Char) (l : List Char) : List Char :=
  collapseAux p repl false l

/-- Step 1, `.replace(/[<>:"/\\|?*]/g, "-")`. -/
def replaceInvalid (cs : List Char) : List Char :=
  cs.map (fun c => if invalidFileChars.contains c then '-' else c)

/-- Step 2, `.replace(/['④""`´]/g, "")`. -/
def removeQuotes (cs : List Char) : List Char :=
  cs.filter (fun c => !(quoteChars.contains c))

/-- Step 3, `.replace(/[.,;:!@#$%^&*()_+={}[\]|\\/]/g, "")`. -/
def removePunct (cs : List Char) : List Char :=
  cs.filter (fun c => !(punctChars.contains c))

/-- Step 6, `.replace(/^-+|-+$/g, "")`: remove the leading and the trailing
hyphen run. -/
def stripEdgeHyphens (cs : List Char) : List Char :=
  ((cs.dropWhile isHyphen).reverse.dropWhile isHyphen).reverse

/-- Steps 1-6 of `Filets.sanitizeFilename` (everything except the final
`.substring(0, 255)` truncation), as a character-list pipeline. -/
def sanitizeStripped (filename : String) : List Char :=
  stripEdgeHyphens
    (collapseRuns isHyphen '-'
      (collapseRuns isJsWhitespace '-'
        (removePunct (removeQuotes (replaceInvalid filename.toList)))))

/-- `Filets.sanitizeFilename` (source lines 69-78): the six replace steps
followed by `.substring(0, 255)`. -/
def sanitizeFilename (filename : String) : String :=
  String.mk ((sanitizeStripped filename).take 255)

end Filets

namespace NodePath

/-!
## Model of the `node:path` collaborator (POSIX flavour)

The source delegates path syntax to `path.dirname`, `path.join`,
`path.normalize` and `path.parse`.  The definitions below follow the
algorithms of Node's `lib/path.js` (posix implementation).
-/

/-- The POSIX path separator test. -/
def isSep (c : Char) : Bool := c = '/'

/-- `path.posix.dirname`: scan from the end, skip trailing separators, then
cut just before the last separator preceding the base name. -/
def dirname (p : String) : String :=
  match p.toList with
  | [] => "."
  | c0 :: rest =>
    let hasRoot := isSep c0
    let rr := (rest.reverse.dropWhile isSep).dropWhile (fun c => !(isSep c))
    if rr.isEmpty then (if hasRoot then "/" else ".")
    else if hasRoot && rr.length = 1 then "//"
    else String.mk (p.toList.take rr.length)

/-- Split a character list at `'/'` boundaries (keeping empty segments, as a
regex split does). -/
def splitSegs : List Char → List (List Char)
  | [] => [[]]
  | c :: rest =>
    if isSep c then [] :: splitSegs rest
    else
      match splitSegs rest with
      | s :: ss => (c :: s) :: ss
      | [] => [[c]]

/-- The segment-stack loop of Node's `normalizeString`: drop empty and `"."`
segments, resolve `".."` against the stack (keeping it when
`allowAboveRoot` and there is nothing left to pop). -/
def normSegs (allowAboveRoot : Bool) : List (List Char) → List (List Char) → List (List Char)
  | [], acc => acc.reverse
  | seg :: rest, acc =>
    if seg.isEmpty || seg = ['.'] then normSegs allowAboveRoot rest acc
    else if seg = ['.', '.'] then
      match acc with
      | top :: accRest =>
        if top = ['.', '.'] then normSegs allowAboveRoot rest (seg :: top :: accRest)
        else normSegs allowAboveRoot rest accRest
      | [] =>
        if allowAboveRoot then normSegs allowAboveRoot rest [seg]
        else normSegs allowAboveRoot rest []
    else normSegs allowAboveRoot rest (seg :: acc)

/-- `path.posix.normalize`. -/
def normalize (p : String) : String :=
  match p.toList with
  | [] => "."
  | c0 :: rest =>
    let isAbs := isSep c0
    let trailingSep := isSep ((c0 :: rest).getLastD ' '
      )
    let body := List.intercalate ['/'] (normSegs (!isAbs) (splitSegs (c0 :: rest)) [])
    if body.isEmpty then
      (if isAbs then "/" else if trailingSep then "./" else ".")
    else
      let withTrail := if trailingSep then body ++ ['/'] else body
      String.mk (if isAbs then '/' :: withTrail else withTrail)

/-- `path.posix.join`: drop empty arguments, concatenate with `'/'`,
normalize; no arguments left means `"."`. -/
def joinList (paths : List String) : String :=
  let parts := paths.filter (fun s => !s.isEmpty)
  if parts.isEmpty then "."
  else normalize (String.mk (List.intercalate ['/'] (parts.map String.toList)))

/-- The `dir`/`base`/`name`/`ext` fields of `path.posix.parse`. -/
structure ParsedPath where
  dir : String
  base : String
  name : String
  ext : String
deriving Repr, DecidableEq

/-- Split a (nonempty) base name into stem and extension: the extension
starts at the last dot, except when that dot is the first character or the
base is exactly `".."`. -/
def splitExtension (base : List Char) : List Char × List Char :=
  let afterLen := (base.reverse.takeWhile (fun c => !(c = '.'))).length
  if afterLen = base.length then (base, [])
  else
    let j := base.length - afterLen - 1
    if j = 0 || base = ['.', '.'] then (base, [])
    else (base.take j, base.drop j)

/-- `path.posix.parse`. -/
def parsePath (p : String) : ParsedPath :=
  match p.toList with
  | [] => ⟨"", "", "", ""⟩
  | c0 :: rest =>
    let cs := c0 :: rest
    let isAbs := isSep c0
    let region := if isAbs then rest else cs
    let rev := region.reverse
    let k1 := (rev.takeWhile isSep).length
    let rr := rev.dropWhile isSep
    let baseRev := rr.takeWhile (fun c => !(isSep c))
    let base := baseRev.reverse
    let rem := rr.drop baseRev.length
    if base.isEmpty then ⟨if isAbs then "/" else "", "", "", ""⟩
    else
      let dir :=
        if rem.isEmpty then (if isAbs then "/" else "")
        else String.mk (cs.take (cs.length - k1 - base.length - 1))
      let (nm, ext) := splitExtension base
      ⟨dir, String.mk base, String.mk nm, String.mk ext⟩

end NodePath

section PathChecks

open NodePath

example : dirname "/a/b.txt" = "/a" := by decide
example : dirname "/a/b/" = "/a" := by decide
example : dirname "a" = "." := by decide
example : dirname "/" = "/" := by decide
example : dirname "a/b" = "a" := by decide
example : dirname "/docs" = "/" := by decide

example : normalize "/a/b.json" = "/a/b.json" := by decide
example : normalize "a//b/" = "a/b/" := by decide
example : normalize "/a/../b" = "/b" := by decide
example : normalize "" = "." := by decide

example : joinList ["/a", "b.json"] = "/a/b.json" := by decide
example : joinList ["dir", "a.txt"] = "dir/a.txt" := by decide
example : joinList ["", ""] = "." := by decide

example : parsePath "/a/b.txt" = ⟨"/a", "b.txt", "b", ".txt"⟩ := by decide
example : parsePath "b" = ⟨"", "b", "b", ""⟩ := by decide
example : parsePath ".bashrc" = ⟨"", ".bashrc", ".bashrc", ""⟩ := by decide
example : parsePath ".." = ⟨"", "..", "..", ""⟩ := by decide
example : parsePath "/a/b/" = ⟨"/a", "b", "b", ""⟩ := by decide
example : parsePath "/b.txt" = ⟨"/", "b.txt", "b", ".txt"⟩ := by decide

end PathChecks

namespace Filets

/-- `Filets.joinPaths` (source lines 290-292): delegate to `path.join`. -/
def joinPaths (paths : List String) : String := NodePath.joinList paths

/-- `Filets.getDirectoryName` (source lines 437-439): delegate to
`path.dirname`. -/
def getDirectoryName (filePath : String) : String := NodePath.dirname filePath

/-- `Filets.changeFileExtension` (source lines 451-456): parse the path, add
a leading dot to the extension argument when absent, rebuild. -/
def changeFileExtension (filePath : String) (newExtension : String) : String :=
  let parsedPath := NodePath.parsePath filePath
  let ext := if newExtension.toList.headD ' ' = '.' then newExtension
    else "." ++ newExtension
  joinPaths [parsedPath.dir, parsedPath.name ++ ext]

end Filets

section ChangeExtChecks

example : Filets.changeFileExtension "/a/b.txt" "json" = "/a/b.json" := by decide
example : Filets.changeFileExtension "/a/b.txt" ".json" = "/a/b.json" := by decide

end ChangeExtChecks

namespace NodeFs

/-!
## Model of the `node:fs` collaborator

The source delegates all filesystem effects to synchronous `node:fs` calls.
The state is a finite map from path strings to nodes; each primitive below
models the corresponding `fs.*Sync` function, with thrown errors modelled
as `Except.error` carrying the message string.
-/

/-- A filesystem node: a regular file with its text content, or a directory. -/
inductive FsNode where
  | fileNode (content : String)
  | dirNode
deriving DecidableEq, Repr

/-- The filesystem state.  The process working directory `"."` and the root
`"/"` are treated as always-existing directories (`alwaysDir`). -/
structure FS where
  entries : List (String × FsNode)
deriving DecidableEq, Repr

def FS.lookup (fs : FS) (p : String) : Option FsNode :=
  (fs.entries.find? (fun e => e.1 == p)).map (fun e => e.2)

def alwaysDir (p : String) : Bool := p = "/" || p = "."

/-- `fs.existsSync`. -/
def existsSync (fs : FS) (p : String) : Bool :=
  alwaysDir p || (fs.lookup p).isSome

/-- `fs.statSync`, reduced to the node kind; throws `ENOENT` when nothing
exists at `p`. -/
def statSync (fs : FS) (p : String) : Except String FsNode :=
  if alwaysDir p then .ok FsNode.dirNode
  else
    match fs.lookup p with
    | some n => .ok n
    | none => .error ("ENOENT: no such file or directory, stat " ++ p)

def FS.isDirAt (fs : FS) (p : String) : Bool :=
  alwaysDir p || fs.lookup p == some FsNode.dirNode

def FS.isFileAt (fs : FS) (p : String) : Bool :=
  match fs.lookup p with
  | some (FsNode.fileNode _) => true
  | _ => false

/-- `p`, `dirname p`, `dirname (dirname p)`, …, stopping at a fixpoint
(fuel-bounded; `dirname` reaches a fixpoint within `p.length` steps). -/
def pathChain : Nat → String → List String
  | 0, p => [p]
  | fuel + 1, p =>
    let d := NodePath.dirname p
    if d = p then [p] else p :: pathChain fuel d

def ancestorPaths (p : String) : List String := pathChain p.length p

def FS.insertDir (fs : FS) (q : String) : FS :=
  if (fs.lookup q).isSome then fs else ⟨(q, FsNode.dirNode) :: fs.entries⟩

/-- `fs.mkdirSync(p, { recursive: true, mode: 0o755 })`: create `p` and all
missing ancestors; fails when a regular file occupies `p` or an ancestor. -/
def mkdirSync (fs : FS) (p : String) : Except String FS :=
  if (ancestorPaths p).any (fun q => FS.isFileAt fs q) then
    .error ("ENOTDIR: not a directory, mkdir " ++ p)
  else .ok ((ancestorPaths p).foldl FS.insertDir fs)

def FS.setFile (fs : FS) (p : String) (content : String) : FS :=
  ⟨(p, FsNode.fileNode content) :: fs.entries.filter (fun e => !(e.1 == p))⟩

/-- `fs.writeFileSync(p, content, "utf8")`: overwrite or create; fails when a
directory occupies `p` or the parent directory is missing. -/
def writeFileSync (fs : FS) (p : String) (content : String) : Except String FS :=
  if fs.isDirAt p then .error ("EISDIR: illegal operation on a directory, open " ++ p)
  else if fs.isDirAt (NodePath.dirname p) then .ok (fs.setFile p content)
  else .error ("ENOENT: no such file or directory, open " ++ p)

/-- `fs.readFileSync(p, "utf8")`. -/
def readFileSync (fs : FS) (p : String) : Except String String :=
  if fs.isDirAt p then .error ("EISDIR: illegal operation on a directory, read " ++ p)
  else
    match fs.lookup p with
    | some (FsNode.fileNode c) => .ok c
    | _ => .error ("ENOENT: no such file or directory, open " ++ p)

/-- Names of the immediate children of directory `d` in the model map. -/
def childNames (fs : FS) (d : String) : List String :=
  fs.entries.filterMap (fun e =>
    if (d.toList ++ ['/']).isPrefixOf e.1.toList then
      let rest := e.1.toList.drop (d.toList.length + 1)
      if !rest.isEmpty && !(rest.contains '/') then some (String.mk rest) else none
    else none)

/-- `fs.readdirSync(d)`. -/
def readdirSync (fs : FS) (d : String) : Except String (List String) :=
  if fs.isDirAt d then .ok (childNames fs d)
  else .error ("ENOENT: no such file or directory, scandir " ++ d)

/-- `fs.renameSync`: re-key the entry at `oldPath` (and everything below it,
for a directory) to `newPath`, overwriting a previous entry at `newPath`. -/
def renameSync (fs : FS) (oldPath newPath : String) : Except String FS :=
  match fs.lookup oldPath with
  | none => .error ("ENOENT: no such file or directory, rename " ++ oldPath)
  | some _ =>
    if fs.isDirAt (NodePath.dirname newPath) then
      .ok ⟨fs.entries.filterMap (fun e =>
        if e.1 == oldPath then some (newPath, e.2)
        else if (oldPath.toList ++ ['/']).isPrefixOf e.1.toList then
          some (newPath ++ String.mk (e.1.toList.drop oldPath.toList.length), e.2)
        else if e.1 == newPath then none
        else some e)⟩
    else .error ("ENOENT: no such file or directory, rename " ++ oldPath)

end NodeFs

namespace Filets

open NodeFs

/-! ## The stateful `Filets` operations

Each definition embeds one method of the `Filets` class; the
`try { … } catch (error) { throw new Error("Failed to …: " + error.message) }`
pattern becomes a `match` on the inner `Except`, re-wrapping the error
string. -/

/-- `Filets.ensureDirectoryExists` (source lines 37-49). -/
def ensureDirectoryExists (fs : FS) (dirPath : String) : Except String FS :=
  match (if !(existsSync fs dirPath) then mkdirSync fs dirPath else Except.ok fs) with
  | .ok fs2 => .ok fs2
  | .error e => .error ("Failed to create directory: " ++ e)

/-- `Filets.fileExists` (source lines 166-172). -/
def fileExists (fs : FS) (filePath : String) : Bool := existsSync fs filePath

/-- `Filets.directoryExists` (source lines 177-183):
`fs.existsSync(dirPath) && fs.statSync(dirPath).isDirectory()`, any error
swallowed to `false`. -/
def directoryExists (fs : FS) (dirPath : String) : Bool :=
  existsSync fs dirPath &&
    (match statSync fs dirPath with
     | .ok FsNode.dirNode => true
     | _ => false)

/-- `Filets.readTextFile` (source lines 111-121). -/
def readTextFile (fs : FS) (filePath : String) : Except String String :=
  match readFileSync fs filePath with
  | .ok s => .ok s
  | .error e => .error ("Failed to read text file: " ++ e)

/-- `Filets.writeTextFile` (source lines 126-141): ensure the parent
directory exists, then write. -/
def writeTextFile (fs : FS) (filePath : String) (content : String) : Except String FS :=
  match (do
      let fs1 ← ensureDirectoryExists fs (getDirectoryName filePath)
      writeFileSync fs1 filePath content) with
  | .ok fs2 => .ok fs2
  | .error e => .error ("Failed to write text file: " ++ e)

/-- `Filets.getDirectoryContents` (source lines 204-217): an empty listing,
not an error, when `dirPath` is not an existing directory. -/
def getDirectoryContents (fs : FS) (dirPath : String) : Except String (List String) :=
  match (if !(directoryExists fs dirPath) then Except.ok []
         else readdirSync fs dirPath) with
  | .ok l => .ok l
  | .error e => .error ("Failed to read directory: " ++ e)

/-- `Filets.createDirectory` (source lines 332-346): throw when the
directory already exists, otherwise delegate to `ensureDirectoryExists`;
either failure is wrapped by this method's own catch. -/
def createDirectory (fs : FS) (dirPath : String) : Except String FS :=
  match (if directoryExists fs dirPath then
           Except.error ("Directory already exists: " ++ dirPath)
         else ensureDirectoryExists fs dirPath) with
  | .ok fs2 => .ok fs2
  | .error e => .error ("Failed to create directory: " ++ e)

/-- `Filets.isEmptyDirectory` (source lines 351-365). -/
def isEmptyDirectory (fs : FS) (dirPath : String) : Except String Bool :=
  match (if !(directoryExists fs dirPath) then
           Except.error ("Directory does not exist: " ++ dirPath)
         else (getDirectoryContents fs dirPath).map (fun contents => contents.length == 0)) with
  | .ok b => .ok b
  | .error e => .error ("Failed to check if directory is empty: " ++ e)

/-- `Filets.renameFile` (source lines 317-327). -/
def renameFile (fs : FS) (oldPath newPath : String) : Except String FS :=
  match renameSync fs oldPath newPath with
  | .ok fs2 => .ok fs2
  | .error e => .error ("Failed to rename file: " ++ e)

/-- `Filets.moveFile` (source lines 297-312): ensure the destination parent
directory exists, then delegate to `renameFile`; any failure (including
`renameFile`'s already-wrapped one) is wrapped again. -/
def moveFile (fs : FS) (sourcePath destPath : String) : Except String FS :=
  match (do
      let fs1 ← ensureDirectoryExists fs (getDirectoryName destPath)
      renameFile fs1 sourcePath destPath) with
  | .ok fs2 => .ok fs2
  | .error e => .error ("Failed to move file: " ++ e)

end Filets

namespace Js

/-!
## Model of the JSON collaborator

`writeJsonFile` serialises with `JSON.stringify(data, null, 2)` and
`readJsonFile` parses with `JSON.parse`.  Both are host builtins; they are
modelled here by an executable pretty-printer and reader over an inductive
value type.  JSON numbers are modelled as integers: float-valued numbers
(fractions, exponents) are outside this embedding, and the reader rejects
them explicitly.
-/

/-- A JSON value (numbers restricted to integers). -/
inductive Json where
  | null
  | bool (b : Bool)
  | num (n : Int)
  | str (s : String)
  | arr (elements : List Json)
  | obj (fields : List (String × Json))

/-- Opening and closing curly bracket characters. -/
def lcurly : Char := Char.ofNat 0x7B

def rcurly : Char := Char.ofNat 0x7D

/-- Lowercase hexadecimal digit for `k < 16`. -/
def hexDigitChar (k : Nat) : Char :=
  if k < 10 then Char.ofNat (48 + k) else Char.ofNat (87 + k)

/-- `JSON.stringify`'s escaping of one character inside a string literal:
quote and backslash are backslash-escaped, the named control characters get
their short escapes, other control characters get `\u00xx`. -/
def escapeChar (c : Char) : List Char :=
  if c = '"' then ['\\', '"']
  else if c = '\\' then ['\\', '\\']
  else if c = Char.ofNat 8 then ['\\', 'b']
  else if c = '\t' then ['\\', 't']
  else if c = '\n' then ['\\', 'n']
  else if c = Char.ofNat 12 then ['\\', 'f']
  else if c = '\r' then ['\\', 'r']
  else if c.toNat < 32 then
    ['\\', 'u', '0', '0', hexDigitChar (c.toNat / 16), hexDigitChar (c.toNat % 16)]
  else [c]

/-- A JSON string literal: quote, escaped characters, quote. -/
def quoteStr (s : String) : List Char :=
  '"' :: (s.toList.flatMap escapeChar ++ ['"'])

/-- The decimal digit character for `k < 10`. -/
def digitChar (k : Nat) : Char := Char.ofNat (48 + k)

/-- Decimal digits of `n`, most significant first (fuel-bounded; `n + 1`
steps always suffice). -/
def natCharsAux : Nat → Nat → List Char
  | 0, _ => []
  | fuel + 1, n =>
    if n < 10 then [digitChar n]
    else natCharsAux fuel (n / 10) ++ [digitChar (n % 10)]

def natChars (n : Nat) : List Char := natCharsAux (n + 1) n

/-- Decimal characters of an integer. -/
def intChars : Int → List Char
  | Int.ofNat n => natChars n
  | Int.negSucc n => '-' :: natChars (n + 1)

mutual

/-- `JSON.stringify(v, null, 2)` at current indentation `ind`: arrays and
objects with at least one element open the bracket, put each element on its
own line indented two spaces beyond `ind`, separated by `",\n"`, and close
the bracket on a line indented by `ind`; object members are rendered as
`"key": value`. -/
def stringifyVal : Json → List Char → List Char
  | Json.null, _ => ['n', 'u', 'l', 'l']
  | Json.bool true, _ => ['t', 'r', 'u', 'e']
  | Json.bool false, _ => ['f', 'a', 'l', 's', 'e']
  | Json.num n, _ => intChars n
  | Json.str s, _ => quoteStr s
  | Json.arr es, ind =>
    match es with
    | [] => ['[', ']']
    | _ :: _ =>
      '[' :: '\n' :: ((ind ++ [' ', ' ']) ++
        (itemsBody es (ind ++ [' ', ' ']) ++ '\n' :: (ind ++ [']'])))
  | Json.obj fs, ind =>
    match fs with
    | [] => [lcurly, rcurly]
    | _ :: _ =>
      lcurly :: '\n' :: ((ind ++ [' ', ' ']) ++
        (fieldsBody fs (ind ++ [' ', ' ']) ++ '\n' :: (ind ++ [rcurly])))

/-- The comma-and-newline separated elements of a nonempty array (each
element after the first preceded by its indentation). -/
def itemsBody : List Json → List Char → List Char
  | [], _ => []
  | [e], ind => stringifyVal e ind
  | e :: e2 :: es, ind =>
    stringifyVal e ind ++ ',' :: '\n' :: (ind ++ itemsBody (e2 :: es) ind)

/-- The members of a nonempty object, each rendered `"key": value`. -/
def fieldsBody : List (String × Json) → List Char → List Char
  | [], _ => []
  | [(k, v)], ind => quoteStr k ++ ':' :: ' ' :: stringifyVal v ind
  | (k, v) :: f2 :: fs, ind =>
    quoteStr k ++ ':' :: ' ' ::
      (stringifyVal v ind ++ ',' :: '\n' :: (ind ++ fieldsBody (f2 :: fs) ind))

end

/-- `JSON.stringify(data, null, 2)`. -/
def stringifyJson (data : Json) : String := String.mk (stringifyVal data [])

/-- The whitespace characters `JSON.parse` skips between tokens. -/
def isJsonWs (c : Char) : Bool := c = ' ' || c = '\t' || c = '\n' || c = '\r'

def skipWs (cs : List Char) : List Char := cs.dropWhile isJsonWs

def isDigitCh (c : Char) : Bool := 48 ≤ c.toNat && c.toNat ≤ 57

/-- Value of one hexadecimal digit. -/
def hexValue (c : Char) : Option Nat :=
  if 48 ≤ c.toNat && c.toNat ≤ 57 then some (c.toNat - 48)
  else if 97 ≤ c.toNat && c.toNat ≤ 102 then some (c.toNat - 87)
  else if 65 ≤ c.toNat && c.toNat ≤ 70 then some (c.toNat - 55)
  else none

/-- The single-character escapes accepted after a backslash. -/
def unescapeChar (e : Char) : Option Char :=
  if e = '"' then some '"'
  else if e = '\\' then some '\\'
  else if e = '/' then some '/'
  else if e = 'b' then some (Char.ofNat 8)
  else if e = 'f' then some (Char.ofNat 12)
  else if e = 'n' then some '\n'
  else if e = 'r' then some '\r'
  else if e = 't' then some '\t'
  else none

/-- Read the body of a JSON string literal (the opening quote already
consumed) up to the closing quote, undoing escapes. -/
def parseStrChars : List Char → Except String (List Char × List Char)
  | [] => .error "Unterminated string in JSON"
  | c :: rest =>
    if c = '"' then .ok ([], rest)
    else if c = '\\' then
      match rest with
      | [] => .error "Bad escape in JSON string"
      | e :: rest2 =>
        if e = 'u' then
          match rest2 with
          | a :: b :: c2 :: d :: rest3 =>
            match hexValue a, hexValue b, hexValue c2, hexValue d with
            | some va, some vb, some vc, some vd =>
              match parseStrChars rest3 with
              | .ok (s, r) => .ok (Char.ofNat (((va * 16 + vb) * 16 + vc) * 16 + vd) :: s, r)
              | .error msg => .error msg
            | _, _, _, _ => .error "Bad unicode escape in JSON string"
          | _ => .error "Bad unicode escape in JSON string"
        else
          match unescapeChar e with
          | some u =>
            match parseStrChars rest2 with
            | .ok (s, r) => .ok (u :: s, r)
            | .error msg => .error msg
          | none => .error "Bad escape in JSON string"
    else if c.toNat < 32 then .error "Bad control character in JSON string"
    else
      match parseStrChars rest with
      | .ok (s, r) => .ok (c :: s, r)
      | .error msg => .error msg

/-- Numeric value of a digit run. -/
def digitsVal (ds : List Char) : Nat :=
  ds.foldl (fun a c => a * 10 + (c.toNat - 48)) 0

/-- Finish an integer literal: reject a following `.`/`e`/`E` (a float-valued
number, outside this model). -/
def parseIntTail (v : Int) : List Char → Except String (Json × List Char)
  | [] => .ok (Json.num v, [])
  | c :: rest =>
    if c = '.' || c = 'e' || c = 'E' then
      .error "non-integer JSON numbers are outside this model"
    else .ok (Json.num v, c :: rest)

/-- Read a nonempty digit run. -/
def parseDigits (cs : List Char) : Except String (Nat × List Char) :=
  let ds := cs.takeWhile isDigitCh
  if ds.isEmpty then .error "Unexpected token in JSON: expected digits"
  else .ok (digitsVal ds, cs.dropWhile isDigitCh)

/-- Read an (integer) JSON number. -/
def parseNumberJson : List Char → Except String (Json × List Char)
  | [] => .error "Unexpected end of JSON input"
  | c :: rest =>
    if c = '-' then
      match parseDigits rest with
      | .ok (n, r) => parseIntTail (-(n : Int)) r
      | .error msg => .error msg
    else
      match parseDigits (c :: rest) with
      | .ok (n, r) => parseIntTail (n : Int) r
      | .error msg => .error msg

/-- Drop an expected literal prefix. -/
def dropPre : List Char → List Char → Option (List Char)
  | [], cs => some cs
  | _ :: _, [] => none
  | e :: es, c :: cs => if c = e then dropPre es cs else none

mutual

/-- Model of `JSON.parse`'s value reader (fuel-bounded recursive descent). -/
def parseValue : Nat → List Char → Except String (Json × List Char)
  | 0, _ => .error "JSON nesting exceeds parser fuel"
  | fuel + 1, cs =>
    match skipWs cs with
    | [] => .error "Unexpected end of JSON input"
    | c :: r =>
      if c = 'n' then
        match dropPre ['u', 'l', 'l'] r with
        | some r2 => .ok (Json.null, r2)
        | none => .error "Unexpected token in JSON"
      else if c = 't' then
        match dropPre ['r', 'u', 'e'] r with
        | some r2 => .ok (Json.bool true, r2)
        | none => .error "Unexpected token in JSON"
      else if c = 'f' then
        match dropPre ['a', 'l', 's', 'e'] r with
        | some r2 => .ok (Json.bool false, r2)
        | none => .error "Unexpected token in JSON"
      else if c = '"' then
        match parseStrChars r with
        | .ok (s, r2) => .ok (Json.str (String.mk s), r2)
        | .error msg => .error msg
      else if c = '[' then
        match skipWs r with
        | [] => .error "Unexpected end of JSON input"
        | c2 :: r2 =>
          if c2 = ']' then .ok (Json.arr [], r2)
          else
            match parseItems fuel (c2 :: r2) with
            | .ok (vs, r3) => .ok (Json.arr vs, r3)
            | .error msg => .error msg
      else if c = lcurly then
        match skipWs r with
        | [] => .error "Unexpected end of JSON input"
        | c2 :: r2 =>
          if c2 = rcurly then .ok (Json.obj [], r2)
          else
            match parseFields fuel (c2 :: r2) with
            | .ok (fs, r3) => .ok (Json.obj fs, r3)
            | .error msg => .error msg
      else if c = '-' || isDigitCh c then parseNumberJson (c :: r)
      else .error "Unexpected token in JSON"

/-- One-or-more comma-separated array elements, consuming the closing `]`. -/
def parseItems : Nat → List Char → Except String (List Json × List Char)
  | 0, _ => .error "JSON nesting exceeds parser fuel"
  | fuel + 1, cs =>
    match parseValue fuel cs with
    | .error msg => .error msg
    | .ok (v, r) =>
      match skipWs r with
      | ',' :: r2 =>
        match parseItems fuel r2 with
        | .ok (vs, r3) => .ok (v :: vs, r3)
        | .error msg => .error msg
      | ']' :: r2 => .ok ([v], r2)
      | _ => .error "Expected comma or closing bracket in JSON array"

/-- One-or-more comma-separated object members, consuming the closing brace. -/
def parseFields : Nat → List Char → Except String (List (String × Json) × List Char)
  | 0, _ => .error "JSON nesting exceeds parser fuel"
  | fuel + 1, cs =>
    match skipWs cs with
    | '"' :: r =>
      match parseStrChars r with
      | .error msg => .error msg
      | .ok (k, r1) =>
        match skipWs r1 with
        | ':' :: r2 =>
          match parseValue fuel r2 with
          | .error msg => .error msg
          | .ok (v, r3) =>
            match skipWs r3 with
            | ',' :: r4 =>
              match parseFields fuel r4 with
              | .ok (fs, r5) => .ok ((String.mk k, v) :: fs, r5)
              | .error msg => .error msg
            | c4 :: r4 =>
              if c4 = rcurly then .ok ([(String.mk k, v)], r4)
              else .error "Expected comma or closing brace in JSON object"
            | [] => .error "Unexpected end of JSON input"
        | _ => .error "Expected colon in JSON object"
    | _ => .error "Expected property name in JSON object"

end

/-- A remainder that cannot extend an integer literal: empty, or starting
with a character that is neither a digit nor `.`/`e`/`E`.  Every JSON
delimiter (`,`, `]`, closing brace, newline, end of input) qualifies. -/
def numSafe : List Char → Bool
  | [] => true
  | c :: _ => !(isDigitCh c || c = '.' || c = 'e' || c = 'E')

/-- `JSON.parse`: read one value, then require only whitespace to remain. -/
def parseJson (s : String) : Except String Json :=
  match parseValue (s.toList.length + 1) s.toList with
  | .ok (v, r) =>
    if (skipWs r).isEmpty then .ok v
    else .error "Unexpected non-whitespace character after JSON data"
  | .error msg => .error msg

end Js

namespace Filets

open NodeFs Js

/-- `Filets.writeJsonFile` (source lines 83-98): ensure the parent directory
exists, serialise with `JSON.stringify(data, null, 2)`, delegate to
`writeTextFile`; any failure (including `writeTextFile`'s already-wrapped
one) is wrapped again. -/
def writeJsonFile (fs : FS) (filePath : String) (data : Json) : Except String FS :=
  match (do
      let fs1 ← ensureDirectoryExists fs (getDirectoryName filePath)
      writeTextFile fs1 filePath (stringifyJson data)) with
  | .ok fs2 => .ok fs2
  | .error e => .error ("Failed to write JSON file: " ++ e)

/-- `Filets.readJsonFile` (source lines 103-106): read text, then
`JSON.parse`; neither a read error nor a parse error is wrapped here. -/
def readJsonFile (fs : FS) (filePath : String) : Except String Json := do
  let json ← readTextFile fs filePath
  parseJson json

end Filets

namespace NodeFs

/-!
## Tree view of the filesystem for the recursive search

`findFiles` walks the real directory tree via `readdirSync`/`statSync`,
recursing with `findFiles(itemPath, pattern)`.  Because the filesystem is
unchanged during the walk, that walk is equivalently a structural recursion
over the directory tree rooted at `dirPath`, which is how it is embedded:
an `FsEntry` is what one walked directory entry looks like (a file with its
content, or a directory with its own listed entries, in `readdirSync`
order). -/
inductive FsEntry where
  | file (content : String)
  | dir (entries : List (String × FsEntry))

/-- Assoc lookup of a name in a listing. -/
def lookupName : List (String × FsEntry) → String → Option FsEntry
  | [], _ => none
  | (n, e) :: rest, q => if n = q then some e else lookupName rest q

/-- Follow a segment path down the tree. -/
def getEntry : FsEntry → List String → Option FsEntry
  | e, [] => some e
  | FsEntry.dir es, n :: rest =>
    match lookupName es n with
    | some e2 => getEntry e2 rest
    | none => none
  | FsEntry.file _, _ :: _ => none

mutual

/-- Well-formedness of one entry: a directory's listing must be well-formed. -/
def entryWF : FsEntry → Bool
  | FsEntry.file _ => true
  | FsEntry.dir sub => treeWF sub

/-- Well-formed tree: no duplicate names in any listing (true of a real
directory tree). -/
def treeWF : List (String × FsEntry) → Bool
  | [] => true
  | (n, e) :: rest =>
    !(rest.any (fun x => x.1 == n)) && entryWF e && treeWF rest

end

end NodeFs

namespace Filets

open NodeFs

/-- `item.includes(q)`: `q` occurs as a contiguous substring. -/
def hasSegment : List Char → List Char → Bool
  | [], seg => seg.isEmpty
  | c :: rest, seg => seg.isPrefixOf (c :: rest) || hasSegment rest seg

def strIncludes (s q : String) : Bool := hasSegment s.toList q.toList

/-- The file filter of `findFiles`: `!pattern || item.includes(pattern)`
(an absent pattern, and the falsy empty-string pattern, accept every name). -/
def filePatternOk (pattern : Option String) (item : String) : Bool :=
  match pattern with
  | none => true
  | some q => q.toList.isEmpty || strIncludes item q

mutual

/-- One loop-body step of `Filets.findFiles` for the entry named `item` of
`dirPath`: a file contributes its joined path when the pattern filter
accepts its name; a directory is recursed into unconditionally (and never
contributes its own path). -/
def findFilesEntry : FsEntry → String → String → Option String → List String
  | FsEntry.file _, dirPath, item, pattern =>
    if filePatternOk pattern item then [joinPaths [dirPath, item]] else []
  | FsEntry.dir sub, dirPath, item, pattern =>
    findFiles sub (joinPaths [dirPath, item]) pattern

/-- `Filets.findFiles` (source lines 461-489) over the tree of entries
listed at `dirPath`, in listing order. -/
def findFiles : List (String × FsEntry) → String → Option String → List String
  | [], _, _ => []
  | (item, e) :: rest, dirPath, pattern =>
    findFilesEntry e dirPath item pattern ++ findFiles rest dirPath pattern

end

/-- Join a chain of path segments one at a time, as the recursive walk
does. -/
def joinChain (dirPath : String) (segs : List String) : String :=
  segs.foldl (fun acc s => joinPaths [acc, s]) dirPath

end Filets

section FindFilesChecks

open NodeFs Filets

example :
    findFiles
        [("a.txt", FsEntry.file "A"), ("b.js", FsEntry.file "B"),
         ("sub", FsEntry.dir [("c.txt", FsEntry.file "C")])] "dir" (some ".txt") =
      ["dir/a.txt", "dir/sub/c.txt"] := by decide

example :
    findFiles
        [("x", FsEntry.dir [("y", FsEntry.file "1")]), ("z.md", FsEntry.file "2")] "d" none =
      ["d/x/y", "d/z.md"] := by decide

example : strIncludes "a.txt" ".txt" = true := by decide
example : strIncludes "b.js" ".txt" = false := by decide
example : filePatternOk (some "") "whatever" = true := by decide

end FindFilesChecks

section JsonChecks

open NodeFs Js Filets

example : stringifyJson (Json.obj [("a", Json.num 1)]) = "\x7b\n  \"a\": 1\n\x7d" := rfl

example :
    stringifyJson
        (Json.obj [("a", Json.arr [Json.num 1, Json.num (-2)]), ("b", Json.str "x\ny")]) =
      "\x7b\n  \"a\": [\n    1,\n    -2\n  ],\n  \"b\": \"x\\ny\"\n\x7d" := rfl

example :
    parseJson
        (stringifyJson
          (Json.obj
            [("a", Json.arr [Json.num 1, Json.num (-2), Json.obj []]),
             ("b", Json.str "x\ny\"z\\w"),
             ("c", Json.bool false), ("d", Json.null),
             ("e", Json.obj [("nested", Json.arr [Json.str ""])])])) =
      .ok
        (Json.obj
          [("a", Json.arr [Json.num 1, Json.num (-2), Json.obj []]),
           ("b", Json.str "x\ny\"z\\w"),
           ("c", Json.bool false), ("d", Json.null),
           ("e", Json.obj [("nested", Json.arr [Json.str ""])])]) := rfl

example :
    (writeJsonFile ⟨[]⟩ "/data/conf.json" (Json.obj [("a", Json.num 1)])).bind
      (fun fs2 => readJsonFile fs2 "/data/conf.json") =
    .ok (Json.obj [("a", Json.num 1)]) := rfl

example :
    readJsonFile ⟨[]⟩ "missing.json" =
      .error "Failed to read text file: ENOENT: no such file or directory, open missing.json" := rfl

example :
    readJsonFile ⟨[("bad.json", FsNode.fileNode "nope")]⟩ "bad.json" =
      .error "Unexpected token in JSON" := rfl

example :
    writeJsonFile ⟨[("a", FsNode.dirNode)]⟩ "a" (Json.null) =
      .error
        "Failed to write JSON file: Failed to write text file: EISDIR: illegal operation on a directory, open a" := rfl

end JsonChecks

section FsChecks

open NodeFs Filets

example :
    (writeTextFile ⟨[]⟩ "/docs/a.txt" "hello").bind
      (fun fs2 => readTextFile fs2 "/docs/a.txt") = .ok "hello" := by decide

example :
    createDirectory ⟨[("d", FsNode.dirNode)]⟩ "d" =
      .error "Failed to create directory: Directory already exists: d" := by decide

example :
    createDirectory ⟨[("a", FsNode.fileNode "x")]⟩ "a" =
      .ok ⟨[("a", FsNode.fileNode "x")]⟩ := by decide

example : directoryExists ⟨[("a", FsNode.fileNode "x")]⟩ "a" = false := by decide

example :
    getDirectoryContents ⟨[("f", FsNode.fileNode "x")]⟩ "f" = .ok [] := by decide

example :
    isEmptyDirectory ⟨[("d", FsNode.dirNode)]⟩ "d" = .ok true := by decide

example :
    isEmptyDirectory ⟨[("d", FsNode.dirNode), ("d/x", FsNode.fileNode "1")]⟩ "d" =
      .ok false := by decide

example :
    isEmptyDirectory ⟨[]⟩ "missing" =
      .error "Failed to check if directory is empty: Directory does not exist: missing" := by
  decide

example :
    moveFile ⟨[]⟩ "x" "y" =
      .error
        "Failed to move file: Failed to rename file: ENOENT: no such file or directory, rename x" := by
  decide

end FsChecks

section SanitizeChecks

open Filets

example : sanitizeFilename "Invalid/File:Name? *\x27\"\x60´!@#.txt" =
    "Invalid-File-Name-txt" := by decide

example : sanitizeFilename "file name with spaces" = "file-name-with-spaces" := by decide

example : (sanitizeFilename (String.mk (List.replicate 300 'a'))).length = 255 := by decide

example :
    (sanitizeFilename (String.mk (List.replicate 254 'a' ++ [' ', 'a']))).toList.getLast?
      = some '-' := by decide

end SanitizeChecks

/-! ## Helper lemmas -/

section HelperLemmas

open NodeFs NodePath Js Filets

theorem isPrefixOf_append_self (seg rest : List Char) :
    seg.isPrefixOf (seg ++ rest) = true := by
  induction seg with
  | nil => simp [List.isPrefixOf]
  | cons c t ih => simp [List.isPrefixOf, ih]

theorem isPrefixOf_append_extend {seg l : List Char} (l2 : List Char)
    (h : seg.isPrefixOf l = true) : seg.isPrefixOf (l ++ l2) = true := by
  induction seg generalizing l with
  | nil => simp [List.isPrefixOf]
  | cons c t ih =>
    cases l with
    | nil => simp [List.isPrefixOf] at h
    | cons x xs =>
      simp only [List.isPrefixOf, Bool.and_eq_true] at h
      simpa [List.isPrefixOf, h.1] using ih h.2

theorem hasSegment_extend {l seg : List Char} (l2 : List Char)
    (h : hasSegment l seg = true) : hasSegment (l ++ l2) seg = true := by
  induction l with
  | nil =>
    simp only [hasSegment] at h
    have : seg = [] := by
      cases seg with
      | nil => rfl
      | cons c t => simp at h
    subst this
    cases l2 with
    | nil => rfl
    | cons c t => simp [hasSegment, List.isPrefixOf]
  | cons x xs ih =>
    simp only [hasSegment, Bool.or_eq_true] at h
    rcases h with h | h
    · simp only [List.cons_append, hasSegment, Bool.or_eq_true]
      exact Or.inl (isPrefixOf_append_extend l2 h)
    · simp only [List.cons_append, hasSegment, Bool.or_eq_true]
      exact Or.inr (ih h)

/-- If a constant message prefix already contains the target, the whole
message (prefix plus arbitrary path) contains it too. -/
theorem strIncludes_prefixed (front tail target : String)
    (h : strIncludes front target = true) : strIncludes (front ++ tail) target = true := by
  unfold strIncludes at h ⊢
  rw [show (front ++ tail).toList = front.toList ++ tail.toList from String.data_append ..]
  exact hasSegment_extend _ h

theorem dirExists_isDirAt {fs : FS} {p : String} (h : directoryExists fs p = true) :
    FS.isDirAt fs p = true := by
  unfold directoryExists at h
  rw [Bool.and_eq_true] at h
  obtain ⟨_, hstat⟩ := h
  unfold FS.isDirAt
  unfold statSync at hstat
  by_cases halw : alwaysDir p
  · simp [halw]
  · simp only [halw, Bool.false_eq_true, if_false] at hstat
    cases hl : fs.lookup p with
    | none => rw [hl] at hstat; simp at hstat
    | some n =>
      rw [hl] at hstat
      cases n with
      | fileNode c => simp at hstat
      | dirNode => simp [halw, hl]

theorem dirExists_of_lookup {fs : FS} {p : String}
    (h : fs.lookup p = some FsNode.dirNode) : directoryExists fs p = true := by
  by_cases halw : alwaysDir p <;>
    simp [directoryExists, existsSync, statSync, halw, h]

theorem insertDir_lookup_self {fs : FS} {a : String} (h : FS.isFileAt fs a = false) :
    FS.lookup (FS.insertDir fs a) a = some FsNode.dirNode := by
  unfold FS.insertDir
  cases hl : fs.lookup a with
  | none => simp [hl, FS.lookup, List.find?]
  | some n =>
    cases n with
    | dirNode => simp [hl]
    | fileNode c => unfold FS.isFileAt at h; rw [hl] at h; simp at h

theorem insertDir_keep_dir {fs : FS} {a q : String}
    (h : FS.lookup fs q = some FsNode.dirNode) :
    FS.lookup (FS.insertDir fs a) q = some FsNode.dirNode := by
  unfold FS.insertDir
  by_cases hs : (fs.lookup a).isSome
  · simp [hs, h]
  · rw [if_neg (by simp [hs])]
    have hne : (a == q) = false := by
      by_cases hq : a = q
      · subst hq; rw [h] at hs; simp at hs
      · simp [hq]
    unfold FS.lookup at h ⊢
    simpa [List.find?, hne] using h

theorem insertDir_keep_notFile {fs : FS} {a q : String} (h : FS.isFileAt fs q = false) :
    FS.isFileAt (FS.insertDir fs a) q = false := by
  unfold FS.insertDir
  by_cases hs : (fs.lookup a).isSome
  · simp [hs, h]
  · rw [if_neg (by simp [hs])]
    unfold FS.isFileAt FS.lookup at h ⊢
    by_cases hq : (a == q) = true
    · simp [List.find?, hq]
    · simp only [Bool.not_eq_true] at hq
      simpa [List.find?, hq] using h

theorem foldl_insertDir_keep_dir : ∀ (chain : List String) (fs : FS) (q : String),
    FS.lookup fs q = some FsNode.dirNode →
    FS.lookup (chain.foldl FS.insertDir fs) q = some FsNode.dirNode := by
  intro chain
  induction chain with
  | nil => intro fs q h; exact h
  | cons a rest ih => intro fs q h; exact ih _ _ (insertDir_keep_dir h)

theorem foldl_insertDir_mem : ∀ (chain : List String) (fs : FS) (q : String),
    q ∈ chain → FS.isFileAt fs q = false →
    FS.lookup (chain.foldl FS.insertDir fs) q = some FsNode.dirNode := by
  intro chain
  induction chain with
  | nil => intro fs q h _; exact absurd h (List.not_mem_nil q)
  | cons a rest ih =>
    intro fs q hmem hnf
    rcases List.mem_cons.mp hmem with rfl | hq
    · exact foldl_insertDir_keep_dir rest _ q (insertDir_lookup_self hnf)
    · exact ih _ _ hq (insertDir_keep_notFile hnf)

/-- After a successful `writeTextFile fs p s = ok fs'`, the model state has
a file node carrying `s` at `p`, so `readTextFile fs' p` returns `s`. -/
theorem writeTextFile_reads {fs : FS} {p s : String} {fs' : FS}
    (h : writeTextFile fs p s = .ok fs') : readTextFile fs' p = .ok s := by
  unfold writeTextFile at h
  simp only [Bind.bind] at h
  cases hens : ensureDirectoryExists fs (getDirectoryName p) with
  | error e => rw [hens] at h; simp [Except.bind] at h
  | ok fs1 =>
    rw [hens] at h
    simp only [Except.bind] at h
    cases hw : writeFileSync fs1 p s with
    | error e => rw [hw] at h; simp at h
    | ok fs2 =>
      rw [hw] at h
      simp only [Except.ok.injEq] at h
      subst h
      unfold writeFileSync at hw
      by_cases hdp : FS.isDirAt fs1 p = true
      · rw [if_pos hdp] at hw; simp at hw
      · rw [if_neg hdp] at hw
        by_cases hpar : FS.isDirAt fs1 (NodePath.dirname p) = true
        · rw [if_pos hpar] at hw
          simp only [Except.ok.injEq] at hw
          subst hw
          have halw : alwaysDir p = false := by
            unfold FS.isDirAt at hdp
            simp only [Bool.or_eq_true, not_or, Bool.not_eq_true] at hdp
            exact hdp.1
          have hlook : FS.lookup (FS.setFile fs1 p s) p = some (FsNode.fileNode s) := by
            simp [FS.setFile, FS.lookup, List.find?]
          simp [readTextFile, readFileSync, FS.isDirAt, halw, hlook]
        · rw [if_neg hpar] at hw; simp at hw

end HelperLemmas

/-! ## Claim theorems -/

section ClaimTheorems

open NodeFs NodePath Js Filets

/-- **C10.** `getDirectoryContents(path)` returns the empty sequence, not an
error, whenever `path` is not an existing directory — whether nothing exists
there or a non-directory entry does. -/
theorem C10_getDirectoryContents_empty (fs : FS) (p : String)
    (h : directoryExists fs p = false) : getDirectoryContents fs p = .ok [] := by
  simp [getDirectoryContents, h]

/-- Witness for **C10**: a path occupied by a regular file (so an entry
exists there, but no directory) yields `ok []`. -/
theorem C10_witness :
    fileExists ⟨[("f", FsNode.fileNode "x")]⟩ "f" = true ∧
    directoryExists ⟨[("f", FsNode.fileNode "x")]⟩ "f" = false ∧
    getDirectoryContents ⟨[("f", FsNode.fileNode "x")]⟩ "f" = .ok [] :=
  ⟨by decide, by decide, C10_getDirectoryContents_empty _ "f" (by decide)⟩

/-- **C6.** `isEmptyDirectory(path)` fails with a message containing
`"does not exist"` when `path` is not an existing directory; on an existing
empty directory (empty listing) it returns `true`; on an existing directory
with at least one entry it returns `false`. -/
theorem C6_isEmptyDirectory :
    (∀ (fs : FS) (p : String), directoryExists fs p = false →
      isEmptyDirectory fs p =
        .error ("Failed to check if directory is empty: Directory does not exist: " ++ p) ∧
      strIncludes ("Failed to check if directory is empty: Directory does not exist: " ++ p)
        "does not exist" = true) ∧
    (∀ (fs : FS) (p : String), directoryExists fs p = true → childNames fs p = [] →
      isEmptyDirectory fs p = .ok true) ∧
    (∀ (fs : FS) (p : String), directoryExists fs p = true → childNames fs p ≠ [] →
      isEmptyDirectory fs p = .ok false) := by
  have hmsg : "Failed to check if directory is empty: " ++ "Directory does not exist: "
      = "Failed to check if directory is empty: Directory does not exist: " := by decide
  refine ⟨fun fs p h => ⟨?_, ?_⟩, fun fs p h hc => ?_, fun fs p h hc => ?_⟩
  · simp only [isEmptyDirectory, h, Bool.not_false, if_true]
    rw [← String.append_assoc, hmsg]
  · exact strIncludes_prefixed
      "Failed to check if directory is empty: Directory does not exist: " p
      "does not exist" (by decide)
  · have hd := dirExists_isDirAt h
    simp [isEmptyDirectory, h, getDirectoryContents, readdirSync, hd, hc, Except.map]
  · have hd := dirExists_isDirAt h
    cases hcn : childNames fs p with
    | nil => exact absurd hcn hc
    | cons a t =>
      simp [isEmptyDirectory, h, getDirectoryContents, readdirSync, hd, hcn, Except.map]

/-- Witness for **C6**: concrete missing, empty, and nonempty directories. -/
theorem C6_witness :
    isEmptyDirectory ⟨[]⟩ "missing" =
      .error "Failed to check if directory is empty: Directory does not exist: missing" ∧
    isEmptyDirectory ⟨[("d", FsNode.dirNode)]⟩ "d" = .ok true ∧
    isEmptyDirectory ⟨[("d", FsNode.dirNode), ("d/x", FsNode.fileNode "1")]⟩ "d" = .ok false :=
  ⟨(C6_isEmptyDirectory.1 ⟨[]⟩ "missing" (by decide)).1,
   C6_isEmptyDirectory.2.1 ⟨[("d", FsNode.dirNode)]⟩ "d" (by decide) (by decide),
   C6_isEmptyDirectory.2.2 ⟨[("d", FsNode.dirNode), ("d/x", FsNode.fileNode "1")]⟩ "d"
     (by decide) (by decide)⟩

/-- **C5, counterexample.** The claim says that whenever no *directory*
exists at the path, `createDirectory` creates the directory (and missing
ancestors).  But when a regular *file* occupies the path, `directoryExists`
is false while `existsSync` is true, so `ensureDirectoryExists` skips
`mkdirSync`: the call succeeds, changes nothing, and no directory exists
afterwards. -/
theorem C5_counterexample :
    createDirectory ⟨[("a", FsNode.fileNode "x")]⟩ "a" =
      .ok ⟨[("a", FsNode.fileNode "x")]⟩ ∧
    directoryExists ⟨[("a", FsNode.fileNode "x")]⟩ "a" = false := by
  constructor <;> decide

/-- **C5 (amended).** On a path where a directory already exists,
`createDirectory` fails with a message containing `"already exists"`.  On a
path occupied by a non-directory entry it succeeds without changing the
filesystem.  On a path where nothing exists (and no ancestor is a regular
file) it creates the directory and all missing ancestors. -/
theorem C5_createDirectory :
    (∀ (fs : FS) (p : String), directoryExists fs p = true →
      createDirectory fs p =
        .error ("Failed to create directory: Directory already exists: " ++ p) ∧
      strIncludes ("Failed to create directory: Directory already exists: " ++ p)
        "already exists" = true) ∧
    (∀ (fs : FS) (p : String), existsSync fs p = true → directoryExists fs p = false →
      createDirectory fs p = .ok fs) ∧
    (∀ (fs : FS) (p : String), existsSync fs p = false →
      (ancestorPaths p).all (fun q => !(FS.isFileAt fs q)) = true →
      ∃ fs', createDirectory fs p = .ok fs' ∧
        ∀ q ∈ ancestorPaths p, directoryExists fs' q = true) := by
  have hmsg : "Failed to create directory: " ++ "Directory already exists: "
      = "Failed to create directory: Directory already exists: " := by decide
  refine ⟨fun fs p h => ⟨?_, ?_⟩, fun fs p hex hdir => ?_, fun fs p hex hall => ?_⟩
  · simp only [createDirectory, h, if_true]
    rw [← String.append_assoc, hmsg]
  · exact strIncludes_prefixed
      "Failed to create directory: Directory already exists: " p "already exists" (by decide)
  · simp [createDirectory, hdir, ensureDirectoryExists, hex]
  · have hdir : directoryExists fs p = false := by
      simp [directoryExists, existsSync] at hex ⊢
      simp [hex]
    have hnf : ∀ q ∈ ancestorPaths p, FS.isFileAt fs q = false := by
      intro q hq
      have := List.all_eq_true.mp hall q hq
      simpa using this
    have hany : ((ancestorPaths p).any fun q => FS.isFileAt fs q) = false := by
      rw [List.any_eq_false]
      intro q hq
      simp [hnf q hq]
    refine ⟨(ancestorPaths p).foldl FS.insertDir fs, ?_, ?_⟩
    · simp [createDirectory, hdir, ensureDirectoryExists, hex, mkdirSync, hany]
    · intro q hq
      exact dirExists_of_lookup (foldl_insertDir_mem _ _ _ hq (hnf q hq))

/-- Witness for **C5**: all three branches at concrete inputs. -/
theorem C5_witness :
    createDirectory ⟨[("d", FsNode.dirNode)]⟩ "d" =
      .error "Failed to create directory: Directory already exists: d" ∧
    createDirectory ⟨[("a", FsNode.fileNode "x")]⟩ "a" =
      .ok ⟨[("a", FsNode.fileNode "x")]⟩ ∧
    ∃ fs', createDirectory ⟨[]⟩ "/docs" = .ok fs' ∧
      ∀ q ∈ ancestorPaths "/docs", directoryExists fs' q = true :=
  ⟨(C5_createDirectory.1 ⟨[("d", FsNode.dirNode)]⟩ "d" (by decide)).1,
   C5_createDirectory.2.1 ⟨[("a", FsNode.fileNode "x")]⟩ "a" (by decide) (by decide),
   C5_createDirectory.2.2 ⟨[]⟩ "/docs" (by decide) (by decide)⟩

/-- **C2.** For every filesystem state, path and string, if
`writeTextFile(p, s)` succeeds then a subsequent `readTextFile(p)` returns
exactly `s`. -/
theorem C2_write_read_text (fs : FS) (p s : String) (fs' : FS)
    (h : writeTextFile fs p s = .ok fs') : readTextFile fs' p = .ok s :=
  writeTextFile_reads h

/-- Witness for **C2**: a concrete write (creating `/docs` on the way) read
back, with an embedded newline in the content. -/
theorem C2_witness :
    readTextFile
        ⟨[("/docs/a.txt", FsNode.fileNode "hello\nworld"), ("/", FsNode.dirNode),
          ("/docs", FsNode.dirNode)]⟩ "/docs/a.txt" = .ok "hello\nworld" :=
  C2_write_read_text ⟨[]⟩ "/docs/a.txt" "hello\nworld" _ (by decide)

/-- **C8.** When the inner operation fails, `writeJsonFile` and `moveFile`
wrap the already-wrapped inner message again, producing
`"Failed to write JSON file: Failed to write text file: <cause>"` and
`"Failed to move file: Failed to rename file: <cause>"`. -/
theorem C8_double_wrapping :
    (∀ (fs fs1 : FS) (p : String) (data : Json) (m : String),
      ensureDirectoryExists fs (getDirectoryName p) = .ok fs1 →
      writeTextFile fs1 p (stringifyJson data) = .error m →
      writeJsonFile fs p data = .error ("Failed to write JSON file: " ++ m) ∧
      ∃ cause, m = "Failed to write text file: " ++ cause) ∧
    (∀ (fs fs1 : FS) (src dst m : String),
      ensureDirectoryExists fs (getDirectoryName dst) = .ok fs1 →
      renameFile fs1 src dst = .error m →
      moveFile fs src dst = .error ("Failed to move file: " ++ m) ∧
      ∃ cause, m = "Failed to rename file: " ++ cause) := by
  constructor
  · intro fs fs1 p data m hens hwt
    constructor
    · simp [writeJsonFile, Bind.bind, Except.bind, hens, hwt]
    · unfold writeTextFile at hwt
      split at hwt
      · simp at hwt
      · rename_i e heq
        refine ⟨e, ?_⟩
        simpa using hwt.symm
  · intro fs fs1 src dst m hens hrn
    constructor
    · simp [moveFile, Bind.bind, Except.bind, hens, hrn]
    · unfold renameFile at hrn
      split at hrn
      · simp at hrn
      · rename_i e heq
        refine ⟨e, ?_⟩
        simpa using hrn.symm

/-- Witness for **C8**: writing JSON onto a path occupied by a directory,
and moving a missing file. -/
theorem C8_witness :
    writeJsonFile ⟨[("a", FsNode.dirNode)]⟩ "a" Json.null =
      .error
        "Failed to write JSON file: Failed to write text file: EISDIR: illegal operation on a directory, open a" ∧
    moveFile ⟨[]⟩ "x" "y" =
      .error
        "Failed to move file: Failed to rename file: ENOENT: no such file or directory, rename x" := by
  constructor
  · have h := (C8_double_wrapping.1 ⟨[("a", FsNode.dirNode)]⟩ ⟨[("a", FsNode.dirNode)]⟩
      "a" Json.null
      "Failed to write text file: EISDIR: illegal operation on a directory, open a"
      (by decide) (by decide)).1
    exact h
  · have h := (C8_double_wrapping.2 ⟨[]⟩ ⟨[]⟩ "x" "y"
      "Failed to rename file: ENOENT: no such file or directory, rename x"
      (by decide) (by decide)).1
    exact h

/-- **C9.** `readJsonFile` reads the file as text then parses it as JSON,
and adds no wrapper of its own: a read failure surfaces with exactly the
message `readTextFile` produced, and a parse failure with exactly the
message the JSON reader produced. -/
theorem C9_readJson_unwrapped :
    (∀ (fs : FS) (p m : String), readTextFile fs p = .error m →
      readJsonFile fs p = .error m) ∧
    (∀ (fs : FS) (p s m : String), readTextFile fs p = .ok s → parseJson s = .error m →
      readJsonFile fs p = .error m) := by
  constructor
  · intro fs p m h
    simp [readJsonFile, Bind.bind, Except.bind, h]
  · intro fs p s m h hp
    simp [readJsonFile, Bind.bind, Except.bind, h, hp]

/-- Witness for **C9**: a missing file propagates the read error unchanged;
a file holding `"nope"` propagates the parse error unchanged. -/
theorem C9_witness :
    readJsonFile ⟨[]⟩ "missing.json" =
      .error "Failed to read text file: ENOENT: no such file or directory, open missing.json" ∧
    readJsonFile ⟨[("bad.json", FsNode.fileNode "nope")]⟩ "bad.json" =
      .error "Unexpected token in JSON" :=
  ⟨C9_readJson_unwrapped.1 ⟨[]⟩ "missing.json" _ (by decide),
   C9_readJson_unwrapped.2 ⟨[("bad.json", FsNode.fileNode "nope")]⟩ "bad.json" "nope" _
     (by decide) (by rfl)⟩

/-- **C7.** `changeFileExtension("/a/b.txt", "json")` and
`changeFileExtension("/a/b.txt", ".json")` both yield `"/a/b.json"`; in
general a dotless extension argument behaves exactly as the dotted one (the
dot is prepended before substitution). -/
theorem C7_changeFileExtension :
    changeFileExtension "/a/b.txt" "json" = "/a/b.json" ∧
    changeFileExtension "/a/b.txt" ".json" = "/a/b.json" ∧
    ∀ (p e : String), ¬(e.toList.headD ' ' = '.') →
      changeFileExtension p e = changeFileExtension p ("." ++ e) := by
  refine ⟨by decide, by decide, fun p e he => ?_⟩
  unfold changeFileExtension
  have hd : ("." ++ e).toList = '.' :: e.toList := by
    show ("." ++ e).data = '.' :: e.data
    rw [String.data_append]
    rfl
  rw [if_neg he, if_pos (by rw [hd]; rfl)]

/-- Witness for **C7**: the dotless/dotted agreement at a fresh input. -/
theorem C7_witness :
    changeFileExtension "/x/n.md" "yml" = changeFileExtension "/x/n.md" ".yml" :=
  C7_changeFileExtension.2.2 "/x/n.md" "yml" (by decide)

end ClaimTheorems

/-! ## Lemmas for `sanitizeFilename` (claim C1) -/

section SanitizeLemmas

open Filets

theorem mem_collapseAux {p : Char → Bool} {r c : Char} :
    ∀ {flag : Bool} {l : List Char},
      c ∈ collapseAux p r flag l → c = r ∨ (c ∈ l ∧ p c = false) := by
  intro flag l
  induction l generalizing flag with
  | nil => intro h; simp [collapseAux] at h
  | cons x t ih =>
    intro h
    unfold collapseAux at h
    by_cases hx : p x = true
    · rw [if_pos hx] at h
      cases flag with
      | true =>
        rw [if_pos rfl] at h
        rcases ih h with h1 | ⟨h2, h3⟩
        · exact Or.inl h1
        · exact Or.inr ⟨List.mem_cons_of_mem _ h2, h3⟩
      | false =>
        rw [if_neg (by simp)] at h
        rcases List.mem_cons.mp h with rfl | hm
        · exact Or.inl rfl
        · rcases ih hm with h1 | ⟨h2, h3⟩
          · exact Or.inl h1
          · exact Or.inr ⟨List.mem_cons_of_mem _ h2, h3⟩
    · rw [if_neg hx] at h
      rcases List.mem_cons.mp h with rfl | hm
      · exact Or.inr ⟨List.mem_cons_self _ _, by simpa using hx⟩
      · rcases ih hm with h1 | ⟨h2, h3⟩
        · exact Or.inl h1
        · exact Or.inr ⟨List.mem_cons_of_mem _ h2, h3⟩

theorem head_collapseAux_true :
    ∀ {l : List Char} {c : Char},
      (collapseAux isHyphen '-' true l).head? = some c → isHyphen c = false := by
  intro l
  induction l with
  | nil => intro c h; simp [collapseAux] at h
  | cons x t ih =>
    intro c h
    unfold collapseAux at h
    by_cases hx : isHyphen x = true
    · rw [if_pos hx, if_pos rfl] at h
      exact ih h
    · rw [if_neg hx] at h
      simp only [List.head?_cons, Option.some.injEq] at h
      subst h
      simpa using hx

theorem chain_collapseAux :
    ∀ (l : List Char) (flag : Bool),
      List.Chain' (fun a b => a = '-' → b ≠ '-') (collapseAux isHyphen '-' flag l) := by
  intro l
  induction l with
  | nil => intro flag; simp [collapseAux]
  | cons x t ih =>
    intro flag
    unfold collapseAux
    by_cases hx : isHyphen x = true
    · rw [if_pos hx]
      cases flag with
      | true => simpa using ih true
      | false =>
        rw [if_neg (by simp)]
        rw [List.chain'_cons']
        refine ⟨fun y hy _ => ?_, ih true⟩
        have := head_collapseAux_true hy
        simpa [isHyphen] using this
    · rw [if_neg hx]
      rw [List.chain'_cons']
      refine ⟨fun y hy hxeq => ?_, ih false⟩
      exact absurd hxeq (by simpa [isHyphen] using hx)

theorem head?_dropWhile_not {p : Char → Bool} :
    ∀ {l : List Char} {c : Char}, (l.dropWhile p).head? = some c → p c = false := by
  intro l
  induction l with
  | nil => intro c h; simp [List.dropWhile] at h
  | cons x t ih =>
    intro c h
    by_cases hx : p x = true
    · rw [show List.dropWhile p (x :: t) = List.dropWhile p t from by
        simp [List.dropWhile, hx]] at h
      exact ih h
    · have hx' : p x = false := by simpa using hx
      rw [show List.dropWhile p (x :: t) = x :: t from by
        simp [List.dropWhile, hx']] at h
      simp only [List.head?_cons, Option.some.injEq] at h
      subst h
      simpa using hx

/-- `dropWhile` minus its trailing hyphen run: the strip result followed by
the stripped-off run reassembles the post-`dropWhile` list. -/
theorem rstrip_decomp (A : List Char) :
    A = (A.reverse.dropWhile isHyphen).reverse ++ (A.reverse.takeWhile isHyphen).reverse := by
  have h := congrArg List.reverse (List.takeWhile_append_dropWhile isHyphen A.reverse)
  rw [List.reverse_append, List.reverse_reverse] at h
  exact h.symm

theorem stripEdge_decomp (l : List Char) :
    l.dropWhile isHyphen =
      stripEdgeHyphens l ++ ((l.dropWhile isHyphen).reverse.takeWhile isHyphen).reverse := by
  unfold stripEdgeHyphens
  exact rstrip_decomp (l.dropWhile isHyphen)

theorem chain'_stripEdgeHyphens {R : Char → Char → Prop} {l : List Char}
    (h : List.Chain' R l) : List.Chain' R (stripEdgeHyphens l) := by
  have h1 : List.Chain' R (l.dropWhile isHyphen) := by
    rw [← List.takeWhile_append_dropWhile isHyphen l] at h
    exact (List.chain'_append.mp h).2.1
  rw [stripEdge_decomp l] at h1
  exact (List.chain'_append.mp h1).1

theorem head_stripEdge {l : List Char} {c : Char}
    (h : (stripEdgeHyphens l).head? = some c) : isHyphen c = false := by
  have heq := stripEdge_decomp l
  cases hse : stripEdgeHyphens l with
  | nil => rw [hse] at h; simp at h
  | cons a t =>
    rw [hse] at h heq
    simp only [List.head?_cons, Option.some.injEq] at h
    subst h
    exact head?_dropWhile_not (by rw [heq]; rfl)

theorem last_stripEdge {l : List Char} {c : Char}
    (h : (stripEdgeHyphens l).getLast? = some c) : isHyphen c = false := by
  have h' : (stripEdgeHyphens l).reverse.head? = some c := by
    rw [List.head?_reverse]; exact h
  unfold stripEdgeHyphens at h'
  rw [List.reverse_reverse] at h'
  exact head?_dropWhile_not h'

theorem head?_take255 (l : List Char) : (l.take 255).head? = l.head? := by
  cases l <;> rfl

/-- Every character of the sanitised output is outside the invalid class,
outside the quote and punctuation removal classes, and is not whitespace. -/
theorem mem_sanitizeFilename {s : String} {c : Char}
    (h : c ∈ (sanitizeFilename s).toList) :
    invalidFileChars.contains c = false ∧ quoteChars.contains c = false ∧
      punctChars.contains c = false ∧ isJsWhitespace c = false := by
  have h6 : c ∈ sanitizeStripped s := List.mem_of_mem_take h
  have h5 : c ∈ collapseRuns isHyphen '-'
      (collapseRuns isJsWhitespace '-'
        (removePunct (removeQuotes (replaceInvalid s.toList)))) := by
    unfold sanitizeStripped stripEdgeHyphens at h6
    rw [List.mem_reverse] at h6
    have h6a := (List.dropWhile_suffix isHyphen).sublist.subset h6
    rw [List.mem_reverse] at h6a
    exact (List.dropWhile_suffix isHyphen).sublist.subset h6a
  rcases mem_collapseAux h5 with rfl | ⟨h4, _⟩
  · exact ⟨by decide, by decide, by decide, by decide⟩
  · rcases mem_collapseAux h4 with rfl | ⟨h3, hws⟩
    · exact ⟨by decide, by decide, by decide, by decide⟩
    · have h3f : c ∈ (removeQuotes (replaceInvalid s.toList)).filter
          (fun c => !(punctChars.contains c)) := h3
      obtain ⟨h2, hpu⟩ := List.mem_filter.mp h3f
      have h2f : c ∈ (replaceInvalid s.toList).filter
          (fun c => !(quoteChars.contains c)) := h2
      obtain ⟨h1, hqu⟩ := List.mem_filter.mp h2f
      have hinv : invalidFileChars.contains c = false := by
        unfold replaceInvalid at h1
        rcases List.mem_map.mp h1 with ⟨d, _, hcd⟩
        by_cases hdi : invalidFileChars.contains d = true
        · rw [if_pos hdi] at hcd
          rw [← hcd]; decide
        · rw [if_neg hdi] at hcd
          rw [← hcd]; simpa using hdi
      exact ⟨hinv, by simpa using hqu, by simpa using hpu, hws⟩

end SanitizeLemmas

section ClaimTheoremsB

open NodeFs NodePath Js Filets

/-- **C1, counterexample.** The claim asserts the output never has a
trailing hyphen, but the `.substring(0, 255)` truncation runs *after* the
edge-hyphen stripping: for 254 `a`s followed by `" a"`, the space becomes a
hyphen at index 254 and truncation cuts the final `a`, leaving a trailing
hyphen. -/
theorem C1_counterexample :
    (sanitizeFilename (String.mk (List.replicate 254 'a' ++ [' ', 'a']))).toList.getLast?
      = some '-' ∧
    (sanitizeFilename (String.mk (List.replicate 254 'a' ++ [' ', 'a']))).length = 255 := by
  constructor <;> decide

/-- **C1 (amended).** `sanitizeFilename` returns at most 255 characters,
none of which is one of `< > : " / \ | ? *`, a quote-class character, a
punctuation-class character, or a whitespace character; no two adjacent
hyphens occur (whitespace runs collapse to one hyphen); the output never
starts with a hyphen, and it ends with a hyphen only when the
pre-truncation result exceeds 255 characters (truncation can expose one);
the spec's example input maps to `"Invalid-File-Name-txt"`. -/
theorem C1_sanitizeFilename (s : String) :
    (sanitizeFilename s).length ≤ 255 ∧
    (∀ c ∈ (sanitizeFilename s).toList, invalidFileChars.contains c = false) ∧
    (∀ c ∈ (sanitizeFilename s).toList, quoteChars.contains c = false) ∧
    (∀ c ∈ (sanitizeFilename s).toList, punctChars.contains c = false) ∧
    (∀ c ∈ (sanitizeFilename s).toList, isJsWhitespace c = false) ∧
    List.Chain' (fun a b => a = '-' → b ≠ '-') (sanitizeFilename s).toList ∧
    (∀ c, (sanitizeFilename s).toList.head? = some c → c ≠ '-') ∧
    ((sanitizeStripped s).length ≤ 255 →
      ∀ c, (sanitizeFilename s).toList.getLast? = some c → c ≠ '-') ∧
    sanitizeFilename "Invalid/File:Name? *\x27\"\x60´!@#.txt" = "Invalid-File-Name-txt" := by
  refine ⟨?_, fun c hc => (mem_sanitizeFilename hc).1,
    fun c hc => (mem_sanitizeFilename hc).2.1,
    fun c hc => (mem_sanitizeFilename hc).2.2.1,
    fun c hc => (mem_sanitizeFilename hc).2.2.2,
    ?_, ?_, ?_, by decide⟩
  · show (List.take 255 (sanitizeStripped s)).length ≤ 255
    rw [List.length_take]
    exact min_le_left _ _
  · show List.Chain' _ (List.take 255 (stripEdgeHyphens _))
    exact (chain'_stripEdgeHyphens (chain_collapseAux _ false)).take 255
  · intro c hc
    have h1 : (stripEdgeHyphens (collapseRuns isHyphen '-'
        (collapseRuns isJsWhitespace '-'
          (removePunct (removeQuotes (replaceInvalid s.toList)))))).head? = some c := by
      rw [← head?_take255]; exact hc
    have := head_stripEdge h1
    simpa [isHyphen] using this
  · intro hlen c hc
    have heq : (sanitizeFilename s).toList = sanitizeStripped s :=
      List.take_of_length_le hlen
    rw [heq] at hc
    have := last_stripEdge hc
    simpa [isHyphen] using this

/-- Witness for **C1**: the amended trailing-hyphen clause at a concrete
short input. -/
theorem C1_witness :
    (sanitizeFilename "x y").length ≤ 255 ∧ ('y' : Char) ≠ '-' :=
  ⟨(C1_sanitizeFilename "x y").1,
   (C1_sanitizeFilename "x y").2.2.2.2.2.2.2.1 (by decide) 'y' (by decide)⟩

end ClaimTheoremsB

/-! ## Lemmas for `findFiles` (claim C4) -/

section FindFilesLemmas

open NodeFs Filets

theorem getEntry_cons (n : String) (e : FsEntry) (rest : List (String × FsEntry))
    (s0 : String) (tl : List String) :
    getEntry (FsEntry.dir ((n, e) :: rest)) (s0 :: tl) =
      if n = s0 then getEntry e tl else getEntry (FsEntry.dir rest) (s0 :: tl) := by
  by_cases h : n = s0 <;> simp [getEntry, lookupName, h]

theorem lookupName_none_of_no_key {rest : List (String × FsEntry)} {n : String}
    (h : rest.any (fun x => x.1 == n) = false) : lookupName rest n = none := by
  induction rest with
  | nil => rfl
  | cons p t ih =>
    obtain ⟨m, e2⟩ := p
    simp only [List.any_cons, Bool.or_eq_false_iff] at h
    have hm : ¬(m = n) := by simpa using h.1
    simp [lookupName, hm, ih h.2]

theorem getEntry_head_lookup {rest : List (String × FsEntry)} {s0 : String} {tl : List String}
    {y : FsEntry} (h : getEntry (FsEntry.dir rest) (s0 :: tl) = some y) :
    lookupName rest s0 ≠ none := by
  intro hn
  simp [getEntry, hn] at h

theorem joinChain_cons (d s : String) (tl : List String) :
    joinChain d (s :: tl) = joinChain (joinPaths [d, s]) tl := rfl

/-- Lifting a tail-tree path to the whole listing: if no entry of `rest`
is named `n`, a path resolving in `rest` resolves identically with the
`(n, e)` entry in front. -/
theorem getEntry_cons_of_tail {n : String} {e : FsEntry} {rest : List (String × FsEntry)}
    {segs : List String} {name : String} {y : FsEntry}
    (hno : rest.any (fun x => x.1 == n) = false)
    (hget : getEntry (FsEntry.dir rest) (segs ++ [name]) = some y) :
    getEntry (FsEntry.dir ((n, e) :: rest)) (segs ++ [name]) = some y := by
  cases segs with
  | nil =>
    rw [List.nil_append] at hget ⊢
    have hs0 : lookupName rest name ≠ none := getEntry_head_lookup hget
    have hne : ¬(n = name) := by
      intro heq
      exact hs0 (by rw [← heq]; exact lookupName_none_of_no_key hno)
    rw [getEntry_cons, if_neg hne]
    exact hget
  | cons s0 tl =>
    rw [List.cons_append] at hget ⊢
    have hs0 : lookupName rest s0 ≠ none := getEntry_head_lookup hget
    have hne : ¬(n = s0) := by
      intro heq
      exact hs0 (by rw [← heq]; exact lookupName_none_of_no_key hno)
    rw [getEntry_cons, if_neg hne]
    exact hget

/-- Membership characterisation of the recursive walk: over a well-formed
tree, a string is in `findFiles es d pat` exactly when it is the chain-join
of a segment path leading to a *file* whose own name passes the pattern
filter.  (Directories are recursed into but never contribute their own
paths.) -/
theorem findFiles_mem_iff :
    ∀ (es : List (String × FsEntry)) (d : String) (pat : Option String) (x : String),
      treeWF es = true →
      (x ∈ findFiles es d pat ↔
        ∃ (segs : List String) (name : String) (c : String),
          getEntry (FsEntry.dir es) (segs ++ [name]) = some (FsEntry.file c) ∧
          filePatternOk pat name = true ∧ x = joinChain d (segs ++ [name]))
  | [], d, pat, x, _ => by
    constructor
    · intro h
      simp [findFiles] at h
    · rintro ⟨segs, name, c, hget, -, -⟩
      exfalso
      cases segs with
      | nil => simp [getEntry, lookupName] at hget
      | cons s0 tl => simp [getEntry, lookupName] at hget
  | (n, FsEntry.file ct) :: rest, d, pat, x, hwf => by
    simp only [treeWF, Bool.and_eq_true, Bool.not_eq_true'] at hwf
    obtain ⟨⟨hno, -⟩, hrest⟩ := hwf
    rw [show findFiles ((n, FsEntry.file ct) :: rest) d pat =
        (if filePatternOk pat n then [joinPaths [d, n]] else []) ++ findFiles rest d pat
        from rfl,
      List.mem_append]
    constructor
    · rintro (hA | hB)
      · by_cases hok : filePatternOk pat n = true
        · rw [if_pos hok] at hA
          rw [List.mem_singleton] at hA
          refine ⟨[], n, ct, ?_, hok, ?_⟩
          · rw [List.nil_append, getEntry_cons, if_pos rfl]
            rfl
          · rw [hA]; rfl
        · rw [if_neg hok] at hA
          simp at hA
      · obtain ⟨segs, name, c, hget, hok, hx⟩ :=
          (findFiles_mem_iff rest d pat x hrest).mp hB
        exact ⟨segs, name, c, getEntry_cons_of_tail hno hget, hok, hx⟩
    · rintro ⟨segs, name, c, hget, hok, hx⟩
      cases segs with
      | nil =>
        rw [List.nil_append] at hget hx
        rw [getEntry_cons] at hget
        by_cases hne : n = name
        · rw [if_pos hne] at hget
          have he : FsEntry.file ct = FsEntry.file c := by
            simpa [getEntry] using hget
          left
          rw [if_pos (by rw [hne]; exact hok)]
          rw [List.mem_singleton, hx, hne]
          rfl
        · rw [if_neg hne] at hget
          right
          exact (findFiles_mem_iff rest d pat x hrest).mpr ⟨[], name, c, hget, hok, hx⟩
      | cons s0 tl =>
        rw [List.cons_append] at hget hx
        rw [getEntry_cons] at hget
        by_cases hne : n = s0
        · rw [if_pos hne] at hget
          cases tl <;> simp [getEntry] at hget
        · rw [if_neg hne] at hget
          right
          refine (findFiles_mem_iff rest d pat x hrest).mpr ⟨s0 :: tl, name, c, ?_, hok, ?_⟩
          · rw [List.cons_append]; exact hget
          · rw [List.cons_append]; exact hx
  | (n, FsEntry.dir sub) :: rest, d, pat, x, hwf => by
    simp only [treeWF, Bool.and_eq_true, Bool.not_eq_true'] at hwf
    obtain ⟨⟨hno, hew⟩, hrest⟩ := hwf
    have hsubwf : treeWF sub = true := by simpa [entryWF] using hew
    rw [show findFiles ((n, FsEntry.dir sub) :: rest) d pat =
        findFiles sub (joinPaths [d, n]) pat ++ findFiles rest d pat from rfl,
      List.mem_append]
    constructor
    · rintro (hA | hB)
      · obtain ⟨segs, name, c, hget, hok, hx⟩ :=
          (findFiles_mem_iff sub (joinPaths [d, n]) pat x hsubwf).mp hA
        refine ⟨n :: segs, name, c, ?_, hok, ?_⟩
        · rw [List.cons_append, getEntry_cons, if_pos rfl]
          exact hget
        · rw [List.cons_append, joinChain_cons]
          exact hx
      · obtain ⟨segs, name, c, hget, hok, hx⟩ :=
          (findFiles_mem_iff rest d pat x hrest).mp hB
        exact ⟨segs, name, c, getEntry_cons_of_tail hno hget, hok, hx⟩
    · rintro ⟨segs, name, c, hget, hok, hx⟩
      cases segs with
      | nil =>
        rw [List.nil_append] at hget hx
        rw [getEntry_cons] at hget
        by_cases hne : n = name
        · rw [if_pos hne] at hget
          exact absurd hget (by simp [getEntry])
        · rw [if_neg hne] at hget
          right
          exact (findFiles_mem_iff rest d pat x hrest).mpr ⟨[], name, c, hget, hok, hx⟩
      | cons s0 tl =>
        rw [List.cons_append] at hget hx
        rw [getEntry_cons] at hget
        by_cases hne : n = s0
        · rw [if_pos hne] at hget
          left
          refine (findFiles_mem_iff sub (joinPaths [d, n]) pat x hsubwf).mpr
            ⟨tl, name, c, hget, hok, ?_⟩
          rw [hx, joinChain_cons, hne]
        · rw [if_neg hne] at hget
          right
          refine (findFiles_mem_iff rest d pat x hrest).mpr ⟨s0 :: tl, name, c, ?_, hok, ?_⟩
          · rw [List.cons_append]; exact hget
          · rw [List.cons_append]; exact hx
termination_by es _ _ _ _ => sizeOf es
decreasing_by all_goals (simp; try omega)

end FindFilesLemmas

section ClaimTheoremsC

open NodeFs Filets

/-- **C4.** `findFiles(dirPath, pattern)` is a pre-order depth-first walk:
over a well-formed tree, a path is in the result exactly when it is the
chain-join of a segment path to a *file* entry whose own name contains the
pattern (pattern absent or empty accepts everything); directories are
recursed into unconditionally and never contribute their own path.  Over
the spec's example tree (`a.txt`, `b.js`, `sub/c.txt`), the result is
exactly the two `.txt` paths. -/
theorem C4_findFiles :
    (∀ (es : List (String × FsEntry)) (d : String) (pat : Option String) (x : String),
      treeWF es = true →
      (x ∈ findFiles es d pat ↔
        ∃ (segs : List String) (name : String) (c : String),
          getEntry (FsEntry.dir es) (segs ++ [name]) = some (FsEntry.file c) ∧
          filePatternOk pat name = true ∧ x = joinChain d (segs ++ [name]))) ∧
    findFiles
      [("a.txt", FsEntry.file "A"), ("b.js", FsEntry.file "B"),
       ("sub", FsEntry.dir [("c.txt", FsEntry.file "C")])] "dir" (some ".txt") =
      ["dir/a.txt", "dir/sub/c.txt"] :=
  ⟨fun es d pat x h => findFiles_mem_iff es d pat x h, by decide⟩

/-- Witness for **C4**: the nested `.txt` file is a member, through the
characterisation, over the concrete well-formed example tree. -/
theorem C4_witness :
    "dir/sub/c.txt" ∈
      findFiles
        [("a.txt", FsEntry.file "A"), ("b.js", FsEntry.file "B"),
         ("sub", FsEntry.dir [("c.txt", FsEntry.file "C")])] "dir" (some ".txt") :=
  (C4_findFiles.1
      [("a.txt", FsEntry.file "A"), ("b.js", FsEntry.file "B"),
       ("sub", FsEntry.dir [("c.txt", FsEntry.file "C")])] "dir" (some ".txt")
      "dir/sub/c.txt" (by decide)).mpr
    ⟨["sub"], "c.txt", "C", rfl, by decide, by decide⟩

end ClaimTheoremsC

/-! ## Lemmas for the JSON codec (claim C3): numbers -/

section JsonNumberLemmas

open Js

theorem digitChar_spec (k : Nat) (h : k < 10) :
    isDigitCh (digitChar k) = true ∧ (digitChar k).toNat = 48 + k := by
  interval_cases k <;> exact ⟨by decide, by decide⟩

theorem hexDigitChar_spec (k : Nat) (h : k < 16) :
    hexValue (hexDigitChar k) = some k := by
  interval_cases k <;> decide

theorem natCharsAux_spec :
    ∀ (fuel n : Nat), n < fuel →
      natCharsAux fuel n ≠ [] ∧ (∀ c ∈ natCharsAux fuel n, isDigitCh c = true) ∧
      digitsVal (natCharsAux fuel n) = n := by
  intro fuel
  induction fuel with
  | zero => intro n h; omega
  | succ f ih =>
    intro n h
    by_cases h10 : n < 10
    · rw [show natCharsAux (f + 1) n = [digitChar n] from by simp [natCharsAux, h10]]
      obtain ⟨hd, ht⟩ := digitChar_spec n h10
      refine ⟨by simp, ?_, ?_⟩
      · intro c hc
        rw [List.mem_singleton] at hc
        subst hc
        exact hd
      · simp [digitsVal, ht]
    · rw [show natCharsAux (f + 1) n = natCharsAux f (n / 10) ++ [digitChar (n % 10)] from by
        simp [natCharsAux, h10]]
      have hrec : n / 10 < f := by omega
      obtain ⟨hne, hdig, hval⟩ := ih (n / 10) hrec
      obtain ⟨hd, ht⟩ := digitChar_spec (n % 10) (Nat.mod_lt _ (by omega))
      refine ⟨by simp, ?_, ?_⟩
      · intro c hc
        rcases List.mem_append.mp hc with hc | hc
        · exact hdig c hc
        · rw [List.mem_singleton] at hc
          subst hc
          exact hd
      · unfold digitsVal at hval ⊢
        rw [List.foldl_append, hval]
        simp [ht]
        omega

theorem natChars_spec (n : Nat) :
    natChars n ≠ [] ∧ (∀ c ∈ natChars n, isDigitCh c = true) ∧
      digitsVal (natChars n) = n :=
  natCharsAux_spec (n + 1) n (by omega)

theorem digit_not_special {c : Char} (h : isDigitCh c = true) :
    c ≠ '-' ∧ c ≠ '.' ∧ c ≠ 'e' ∧ c ≠ 'E' ∧ isJsonWs c = false ∧
    c ≠ 'n' ∧ c ≠ 't' ∧ c ≠ 'f' ∧ c ≠ '"' ∧ c ≠ '[' ∧ c ≠ lcurly ∧
    c ≠ ']' ∧ c ≠ rcurly ∧ c ≠ ',' ∧ c ≠ ':' := by
  unfold isDigitCh at h
  rw [Bool.and_eq_true] at h
  have h1 : 48 ≤ c.toNat := by simpa using h.1
  have h2 : c.toNat ≤ 57 := by simpa using h.2
  have hne : ∀ d : Char, d.toNat < 48 ∨ 57 < d.toNat → c ≠ d := by
    intro d hd heq
    subst heq
    omega
  refine ⟨hne '-' (by decide), hne '.' (by decide), hne 'e' (by decide), hne 'E' (by decide),
    ?_, hne 'n' (by decide), hne 't' (by decide), hne 'f' (by decide), hne '"' (by decide),
    hne '[' (by decide), hne lcurly (by decide), hne ']' (by decide), hne rcurly (by decide),
    hne ',' (by decide), hne ':' (by decide)⟩
  simp [isJsonWs, hne ' ' (by decide), hne '\t' (by decide), hne '\n' (by decide),
    hne '\r' (by decide)]

theorem takeWhile_digits (ds rest : List Char)
    (hds : ∀ c ∈ ds, isDigitCh c = true)
    (hrest : ∀ c, rest.head? = some c → isDigitCh c = false) :
    (ds ++ rest).takeWhile isDigitCh = ds ∧ (ds ++ rest).dropWhile isDigitCh = rest := by
  induction ds with
  | nil =>
    simp only [List.nil_append]
    cases rest with
    | nil => simp
    | cons c t =>
      have := hrest c rfl
      constructor
      · simp [List.takeWhile, this]
      · simp [List.dropWhile, this]
  | cons d ds ih =>
    have hd : isDigitCh d = true := hds d (by simp)
    obtain ⟨ht, hdw⟩ := ih (fun c hc => hds c (by simp [hc]))
    constructor
    · simp [List.takeWhile, hd, ht]
    · simp [List.dropWhile, hd, hdw]

theorem numSafe_head {rest : List Char} (h : numSafe rest = true) :
    ∀ c, rest.head? = some c → isDigitCh c = false ∧ c ≠ '.' ∧ c ≠ 'e' ∧ c ≠ 'E' := by
  intro c hc
  cases rest with
  | nil => simp at hc
  | cons x t =>
    simp only [List.head?_cons, Option.some.injEq] at hc
    subst hc
    unfold numSafe at h
    simp only [Bool.not_eq_true', Bool.or_eq_false_iff] at h
    obtain ⟨⟨⟨hd, h1⟩, h2⟩, h3⟩ := h
    exact ⟨hd, by simpa using h1, by simpa using h2, by simpa using h3⟩

theorem parseDigits_natChars (n : Nat) (rest : List Char) (h : numSafe rest = true) :
    parseDigits (natChars n ++ rest) = .ok (n, rest) := by
  obtain ⟨hne, hdig, hval⟩ := natChars_spec n
  obtain ⟨htw, hdw⟩ := takeWhile_digits (natChars n) rest hdig
    (fun c hc => ((numSafe_head h) c hc).1)
  unfold parseDigits
  rw [htw, hdw]
  rw [if_neg (by simpa using hne)]
  rw [hval]

theorem parseIntTail_numSafe (v : Int) (rest : List Char) (h : numSafe rest = true) :
    parseIntTail v rest = .ok (Json.num v, rest) := by
  cases rest with
  | nil => rfl
  | cons c t =>
    obtain ⟨-, h1, h2, h3⟩ := numSafe_head h c rfl
    simp [parseIntTail, h1, h2, h3]

theorem parseNumberJson_intChars (k : Int) (rest : List Char) (h : numSafe rest = true) :
    parseNumberJson (intChars k ++ rest) = .ok (Json.num k, rest) := by
  cases k with
  | ofNat n =>
    obtain ⟨hne, hdig, -⟩ := natChars_spec n
    rw [show intChars (Int.ofNat n) = natChars n from rfl]
    cases hnc : natChars n with
    | nil => exact absurd hnc hne
    | cons d ds =>
      have hd : isDigitCh d = true := hdig d (by rw [hnc]; simp)
      obtain ⟨hminus, -⟩ := digit_not_special hd
      rw [show (d :: ds) ++ rest = d :: (ds ++ rest) from rfl]
      rw [show parseNumberJson (d :: (ds ++ rest)) =
          (if d = '-' then
            match parseDigits (ds ++ rest) with
            | .ok (m, r) => parseIntTail (-(m : Int)) r
            | .error msg => .error msg
          else
            match parseDigits (d :: (ds ++ rest)) with
            | .ok (m, r) => parseIntTail ((m : Int)) r
            | .error msg => .error msg) from rfl]
      rw [if_neg hminus]
      rw [show d :: (ds ++ rest) = (d :: ds) ++ rest from rfl, ← hnc]
      rw [parseDigits_natChars n rest h]
      exact parseIntTail_numSafe _ rest h
  | negSucc n =>
    rw [show intChars (Int.negSucc n) = '-' :: natChars (n + 1) from rfl]
    rw [show ('-' :: natChars (n + 1)) ++ rest = '-' :: (natChars (n + 1) ++ rest) from rfl]
    rw [show parseNumberJson ('-' :: (natChars (n + 1) ++ rest)) =
        (if '-' = '-' then
          match parseDigits (natChars (n + 1) ++ rest) with
          | .ok (m, r) => parseIntTail (-(m : Int)) r
          | .error msg => .error msg
        else
          match parseDigits ('-' :: (natChars (n + 1) ++ rest)) with
          | .ok (m, r) => parseIntTail ((m : Int)) r
          | .error msg => .error msg) from rfl]
    rw [if_pos rfl]
    rw [parseDigits_natChars (n + 1) rest h]
    rw [show Int.negSucc n = -(((n + 1 : Nat) : Int)) from by
      rw [Int.negSucc_eq]; push_cast; ring]
    exact parseIntTail_numSafe _ rest h

end JsonNumberLemmas

/-! ## Lemmas for the JSON codec (claim C3): strings and whitespace -/

section JsonStringLemmas

open Js

theorem parseStrChars_escape (c : Char) (X : List Char) :
    parseStrChars (escapeChar c ++ X) =
      match parseStrChars X with
      | .ok (s, r) => .ok (c :: s, r)
      | .error m => .error m := by
  unfold escapeChar
  by_cases h1 : c = '"'
  · rw [if_pos h1]; subst h1; rw [parseStrChars.eq_def]; simp [unescapeChar]
  · rw [if_neg h1]
    by_cases h2 : c = '\\'
    · rw [if_pos h2]; subst h2; rw [parseStrChars.eq_def]; simp [unescapeChar]
    · rw [if_neg h2]
      by_cases h3 : c = Char.ofNat 8
      · rw [if_pos h3]; subst h3; rw [parseStrChars.eq_def]; simp [unescapeChar]
      · rw [if_neg h3]
        by_cases h4 : c = '\t'
        · rw [if_pos h4]; subst h4; rw [parseStrChars.eq_def]; simp [unescapeChar]
        · rw [if_neg h4]
          by_cases h5 : c = '\n'
          · rw [if_pos h5]; subst h5; rw [parseStrChars.eq_def]; simp [unescapeChar]
          · rw [if_neg h5]
            by_cases h6 : c = Char.ofNat 12
            · rw [if_pos h6]; subst h6; rw [parseStrChars.eq_def]; simp [unescapeChar]
            · rw [if_neg h6]
              by_cases h7 : c = '\r'
              · rw [if_pos h7]; subst h7; rw [parseStrChars.eq_def]; simp [unescapeChar]
              · rw [if_neg h7]
                by_cases h8 : c.toNat < 32
                · rw [if_pos h8]
                  have hx1 := hexDigitChar_spec (c.toNat / 16) (by omega)
                  have hx2 := hexDigitChar_spec (c.toNat % 16) (by omega)
                  simp only [List.cons_append, List.nil_append]
                  rw [parseStrChars.eq_def]
                  simp [hx1, hx2, show hexValue '0' = some 0 from by decide]
                  rw [show c.toNat / 16 * 16 + c.toNat % 16 = c.toNat from by omega]
                  rw [Char.ofNat_toNat]
                · rw [if_neg h8]
                  simp only [List.cons_append, List.nil_append]
                  rw [parseStrChars.eq_def]
                  simp [h1, h2, h8]

theorem parseStrChars_flatMap : ∀ (cs X : List Char),
    parseStrChars (cs.flatMap escapeChar ++ ('"' :: X)) = .ok (cs, X) := by
  intro cs
  induction cs with
  | nil =>
    intro X
    rw [show (([] : List Char).flatMap escapeChar ++ ('"' :: X)) = '"' :: X from rfl]
    rw [parseStrChars.eq_def]
    simp
  | cons c t ih =>
    intro X
    rw [List.flatMap_cons, List.append_assoc, parseStrChars_escape, ih]

theorem skipWs_ws_append {ws : List Char} (l : List Char)
    (h : ∀ c ∈ ws, isJsonWs c = true) : skipWs (ws ++ l) = skipWs l := by
  induction ws with
  | nil => rfl
  | cons x t ih =>
    have hx : isJsonWs x = true := h x (by simp)
    rw [List.cons_append]
    rw [show skipWs (x :: (t ++ l)) = skipWs (t ++ l) from by
      simp [skipWs, List.dropWhile, hx]]
    exact ih (fun c hc => h c (by simp [hc]))

theorem skipWs_cons_not {c : Char} (t : List Char) (h : isJsonWs c = false) :
    skipWs (c :: t) = c :: t := by
  simp [skipWs, List.dropWhile, h]

theorem parseValue_ws (fuel : Nat) {ws : List Char} (l : List Char)
    (h : ∀ c ∈ ws, isJsonWs c = true) :
    parseValue fuel (ws ++ l) = parseValue fuel l := by
  cases fuel with
  | zero => rfl
  | succ f =>
    simp only [parseValue]
    rw [skipWs_ws_append l h]

theorem parseItems_ws (fuel : Nat) {ws : List Char} (l : List Char)
    (h : ∀ c ∈ ws, isJsonWs c = true) :
    parseItems fuel (ws ++ l) = parseItems fuel l := by
  cases fuel with
  | zero => rfl
  | succ f =>
    simp only [parseItems]
    rw [parseValue_ws f l h]

theorem parseFields_ws (fuel : Nat) {ws : List Char} (l : List Char)
    (h : ∀ c ∈ ws, isJsonWs c = true) :
    parseFields fuel (ws ++ l) = parseFields fuel l := by
  cases fuel with
  | zero => rfl
  | succ f =>
    simp only [parseFields]
    rw [skipWs_ws_append l h]

theorem parseValue_number_head (f : Nat) (c : Char) (t : List Char)
    (hws : isJsonWs c = false) (h1 : ¬(c = 'n')) (h2 : ¬(c = 't')) (h3 : ¬(c = 'f'))
    (h4 : ¬(c = '"')) (h5 : ¬(c = '[')) (h6 : ¬(c = lcurly))
    (h7 : (c = '-' || isDigitCh c) = true) :
    parseValue (f + 1) (c :: t) = parseNumberJson (c :: t) := by
  simp only [parseValue]
  rw [skipWs_cons_not t hws]
  simp [h1, h2, h3, h4, h5, h6, h7]

/-- Rendered values begin with a specific non-whitespace character that is
neither `]` nor the closing brace. -/
theorem stringifyVal_head (v : Json) (ind : List Char) :
    ∃ c t, stringifyVal v ind = c :: t ∧ isJsonWs c = false ∧ c ≠ ']' ∧ c ≠ rcurly := by
  cases v with
  | num k =>
    cases k with
    | ofNat n =>
      obtain ⟨hne, hdig, -⟩ := natChars_spec n
      cases hnc : natChars n with
      | nil => exact absurd hnc hne
      | cons d ds =>
        have hd := hdig d (by rw [hnc]; simp)
        obtain ⟨-, -, -, -, hws, -, -, -, -, -, -, hrb, hrc, -, -⟩ := digit_not_special hd
        refine ⟨d, ds, ?_, hws, hrb, hrc⟩
        rw [show stringifyVal (Json.num (Int.ofNat n)) ind = natChars n from rfl, hnc]
    | negSucc n =>
      refine ⟨'-', natChars (n + 1), ?_, ?_, ?_, ?_⟩
      case _ => rw [show stringifyVal (Json.num (Int.negSucc n)) ind =
        '-' :: natChars (n + 1) from rfl]
      all_goals decide
  | arr es =>
    cases es
    case nil => refine ⟨'[', _, rfl, ?_, ?_, ?_⟩ <;> decide
    case cons e es2 => refine ⟨'[', _, rfl, ?_, ?_, ?_⟩ <;> decide
  | obj fs =>
    cases fs
    case nil => refine ⟨lcurly, _, rfl, ?_, ?_, ?_⟩ <;> decide
    case cons f fs2 => refine ⟨lcurly, _, rfl, ?_, ?_, ?_⟩ <;> decide
  | str s => refine ⟨'"', _, rfl, ?_, ?_, ?_⟩ <;> decide
  | bool b =>
    cases b
    case false => refine ⟨'f', _, rfl, ?_, ?_, ?_⟩ <;> decide
    case true => refine ⟨'t', _, rfl, ?_, ?_, ?_⟩ <;> decide
  | null => refine ⟨'n', _, rfl, ?_, ?_, ?_⟩ <;> decide

end JsonStringLemmas

/-! ## Lemmas for the JSON codec (claim C3): parser steps -/

section JsonStepLemmas

open Js

theorem wsExtend {ind : List Char} (h : ∀ c ∈ ind, isJsonWs c = true) :
    ∀ c ∈ ind ++ [' ', ' '], isJsonWs c = true := by
  intro c hc
  rcases List.mem_append.mp hc with hc | hc
  · exact h c hc
  · rcases List.mem_cons.mp hc with rfl | hc2
    · decide
    · rcases List.mem_cons.mp hc2 with rfl | hc3
      · decide
      · simp at hc3

theorem wsCons {ind : List Char} (h : ∀ c ∈ ind, isJsonWs c = true) :
    ∀ c ∈ '\n' :: ind, isJsonWs c = true := by
  intro c hc
  rcases List.mem_cons.mp hc with rfl | hc2
  · decide
  · exact h c hc2

theorem parseValue_null_step (f : Nat) (rest : List Char) :
    parseValue (f + 1) ('n' :: 'u' :: 'l' :: 'l' :: rest) = .ok (Json.null, rest) := by
  simp only [parseValue]
  rw [skipWs_cons_not _ (by decide)]
  simp [dropPre]

theorem parseValue_true_step (f : Nat) (rest : List Char) :
    parseValue (f + 1) ('t' :: 'r' :: 'u' :: 'e' :: rest) = .ok (Json.bool true, rest) := by
  simp only [parseValue]
  rw [skipWs_cons_not _ (by decide)]
  simp [dropPre]

theorem parseValue_false_step (f : Nat) (rest : List Char) :
    parseValue (f + 1) ('f' :: 'a' :: 'l' :: 's' :: 'e' :: rest) =
      .ok (Json.bool false, rest) := by
  simp only [parseValue]
  rw [skipWs_cons_not _ (by decide)]
  simp [dropPre]

theorem parseValue_string_step (f : Nat) (r : List Char) :
    parseValue (f + 1) ('"' :: r) =
      match parseStrChars r with
      | .ok (s, r2) => .ok (Json.str (String.mk s), r2)
      | .error msg => .error msg := by
  simp only [parseValue]
  rw [skipWs_cons_not r (by decide)]
  simp

theorem parseValue_array_step (f : Nat) (r : List Char) :
    parseValue (f + 1) ('[' :: r) =
      (match skipWs r with
       | [] => .error "Unexpected end of JSON input"
       | c2 :: r2 =>
         if c2 = ']' then .ok (Json.arr [], r2)
         else
           match parseItems f (c2 :: r2) with
           | .ok (vs, r3) => .ok (Json.arr vs, r3)
           | .error msg => .error msg) := by
  simp only [parseValue]
  rw [skipWs_cons_not r (by decide)]
  simp

theorem parseValue_object_step (f : Nat) (r : List Char) :
    parseValue (f + 1) (lcurly :: r) =
      (match skipWs r with
       | [] => .error "Unexpected end of JSON input"
       | c2 :: r2 =>
         if c2 = rcurly then .ok (Json.obj [], r2)
         else
           match parseFields f (c2 :: r2) with
           | .ok (fs, r3) => .ok (Json.obj fs, r3)
           | .error msg => .error msg) := by
  simp only [parseValue]
  rw [skipWs_cons_not r (by decide)]
  simp [show ¬(lcurly = 'n') from by decide, show ¬(lcurly = 't') from by decide,
    show ¬(lcurly = 'f') from by decide, show ¬(lcurly = '"') from by decide,
    show ¬(lcurly = '[') from by decide]

end JsonStepLemmas

/-! ## The JSON codec round-trip (claim C3) -/

section JsonRoundtrip

open Js

theorem parseFields_key_step (f : Nat) (k : String) (r2 : List Char) :
    parseFields (f + 1) ('"' :: (k.toList.flatMap escapeChar ++ ('"' :: (':' :: r2))))
      = (match parseValue f r2 with
         | .error msg => .error msg
         | .ok (v, r3) =>
           match skipWs r3 with
           | ',' :: r4 =>
             match parseFields f r4 with
             | .ok (fs, r5) => .ok ((k, v) :: fs, r5)
             | .error msg => .error msg
           | c4 :: r4 =>
             if c4 = rcurly then .ok ([(k, v)], r4)
             else .error "Expected comma or closing brace in JSON object"
           | [] => .error "Unexpected end of JSON input") := by
  simp only [parseFields]
  rw [skipWs_cons_not _ (by decide)]
  have hcol : skipWs (':' :: r2) = ':' :: r2 := skipWs_cons_not r2 (by decide)
  simp [parseStrChars_flatMap, hcol]

mutual

theorem rt_parseValue :
    ∀ (v : Json) (ind rest : List Char) (fuel : Nat),
      (∀ c ∈ ind, isJsonWs c = true) →
      (stringifyVal v ind).length < fuel →
      numSafe rest = true →
      parseValue fuel (stringifyVal v ind ++ rest) = .ok (v, rest)
  | Json.null, ind, rest, fuel, hind, hf, hsafe => by
    cases fuel with
    | zero => exact absurd hf (Nat.not_lt_zero _)
    | succ f =>
      rw [show stringifyVal Json.null ind = ['n', 'u', 'l', 'l'] from rfl]
      exact parseValue_null_step f rest
  | Json.bool true, ind, rest, fuel, hind, hf, hsafe => by
    cases fuel with
    | zero => exact absurd hf (Nat.not_lt_zero _)
    | succ f =>
      rw [show stringifyVal (Json.bool true) ind = ['t', 'r', 'u', 'e'] from rfl]
      exact parseValue_true_step f rest
  | Json.bool false, ind, rest, fuel, hind, hf, hsafe => by
    cases fuel with
    | zero => exact absurd hf (Nat.not_lt_zero _)
    | succ f =>
      rw [show stringifyVal (Json.bool false) ind = ['f', 'a', 'l', 's', 'e'] from rfl]
      exact parseValue_false_step f rest
  | Json.num k, ind, rest, fuel, hind, hf, hsafe => by
    cases fuel with
    | zero => exact absurd hf (Nat.not_lt_zero _)
    | succ f =>
      rw [show stringifyVal (Json.num k) ind = intChars k from rfl]
      cases k with
      | ofNat n =>
        obtain ⟨hne, hdig, -⟩ := natChars_spec n
        cases hnc : natChars n with
        | nil => exact absurd hnc hne
        | cons d ds =>
          have hd : isDigitCh d = true := hdig d (by rw [hnc]; simp)
          obtain ⟨-, -, -, -, hws, hn, ht, hfc, hq, hbk, hbc, -, -, -, -⟩ :=
            digit_not_special hd
          rw [show intChars (Int.ofNat n) = natChars n from rfl, hnc]
          rw [show (d :: ds) ++ rest = d :: (ds ++ rest) from rfl]
          rw [parseValue_number_head f d (ds ++ rest) hws hn ht hfc hq hbk hbc
            (by simp [hd])]
          rw [show d :: (ds ++ rest) = (d :: ds) ++ rest from rfl, ← hnc]
          rw [show natChars n = intChars (Int.ofNat n) from rfl]
          exact parseNumberJson_intChars (Int.ofNat n) rest hsafe
      | negSucc n =>
        rw [show intChars (Int.negSucc n) = '-' :: natChars (n + 1) from rfl]
        rw [show ('-' :: natChars (n + 1)) ++ rest = '-' :: (natChars (n + 1) ++ rest)
          from rfl]
        rw [parseValue_number_head f '-' (natChars (n + 1) ++ rest) (by decide) (by decide)
          (by decide) (by decide) (by decide) (by decide) (by decide) (by decide)]
        rw [show '-' :: (natChars (n + 1) ++ rest) =
          ('-' :: natChars (n + 1)) ++ rest from rfl]
        rw [show '-' :: natChars (n + 1) = intChars (Int.negSucc n) from rfl]
        exact parseNumberJson_intChars (Int.negSucc n) rest hsafe
  | Json.str s, ind, rest, fuel, hind, hf, hsafe => by
    cases fuel with
    | zero => exact absurd hf (Nat.not_lt_zero _)
    | succ f =>
      rw [show stringifyVal (Json.str s) ind =
        '"' :: (s.toList.flatMap escapeChar ++ ['"']) from rfl]
      rw [show ('"' :: (s.toList.flatMap escapeChar ++ ['"'])) ++ rest
        = '"' :: (s.toList.flatMap escapeChar ++ ('"' :: rest)) from by simp]
      rw [parseValue_string_step, parseStrChars_flatMap]
      rfl
  | Json.arr [], ind, rest, fuel, hind, hf, hsafe => by
    cases fuel with
    | zero => exact absurd hf (Nat.not_lt_zero _)
    | succ f =>
      rw [show stringifyVal (Json.arr []) ind = ['[', ']'] from rfl]
      rw [show (['[', ']'] : List Char) ++ rest = '[' :: (']' :: rest) from rfl]
      rw [parseValue_array_step]
      rw [skipWs_cons_not _ (by decide)]
      simp
  | Json.arr (e :: es), ind, rest, fuel, hind, hf, hsafe => by
    cases fuel with
    | zero => exact absurd hf (Nat.not_lt_zero _)
    | succ f =>
      obtain ⟨c2, t2, he2, hws2, hbr2, -⟩ := stringifyVal_head e (ind ++ [' ', ' '])
      have hib : ∃ tb, itemsBody (e :: es) (ind ++ [' ', ' ']) = c2 :: tb := by
        cases es with
        | nil =>
          exact ⟨t2, by rw [show itemsBody [e] (ind ++ [' ', ' ']) =
            stringifyVal e (ind ++ [' ', ' ']) from rfl, he2]⟩
        | cons e2 es2 =>
          refine ⟨t2 ++ (',' :: '\n' :: ((ind ++ [' ', ' ']) ++
            itemsBody (e2 :: es2) (ind ++ [' ', ' ']))), ?_⟩
          rw [show itemsBody (e :: e2 :: es2) (ind ++ [' ', ' ']) =
              stringifyVal e (ind ++ [' ', ' ']) ++
                (',' :: '\n' :: ((ind ++ [' ', ' ']) ++
                  itemsBody (e2 :: es2) (ind ++ [' ', ' ']))) from rfl, he2]
          simp
      obtain ⟨tb, hib⟩ := hib
      have hlen : (itemsBody (e :: es) (ind ++ [' ', ' '])).length + 1 < f := by
        rw [show stringifyVal (Json.arr (e :: es)) ind =
          '[' :: '\n' :: ((ind ++ [' ', ' ']) ++
            (itemsBody (e :: es) (ind ++ [' ', ' ']) ++ '\n' :: (ind ++ [']']))) from rfl]
          at hf
        simp [List.length_append] at hf
        omega
      rw [show stringifyVal (Json.arr (e :: es)) ind =
        '[' :: '\n' :: ((ind ++ [' ', ' ']) ++
          (itemsBody (e :: es) (ind ++ [' ', ' ']) ++ '\n' :: (ind ++ [']']))) from rfl]
      rw [show ('[' :: '\n' :: ((ind ++ [' ', ' ']) ++
          (itemsBody (e :: es) (ind ++ [' ', ' ']) ++ '\n' :: (ind ++ [']'])))) ++ rest
        = '[' :: ('\n' :: ((ind ++ [' ', ' ']) ++
          (itemsBody (e :: es) (ind ++ [' ', ' ']) ++
            ('\n' :: (ind ++ (']' :: rest)))))) from by simp]
      rw [parseValue_array_step]
      have hskip : skipWs ('\n' :: ((ind ++ [' ', ' ']) ++
          (itemsBody (e :: es) (ind ++ [' ', ' ']) ++ ('\n' :: (ind ++ (']' :: rest)))))) =
          c2 :: (tb ++ ('\n' :: (ind ++ (']' :: rest)))) := by
        rw [show ('\n' :: ((ind ++ [' ', ' ']) ++
            (itemsBody (e :: es) (ind ++ [' ', ' ']) ++ ('\n' :: (ind ++ (']' :: rest))))))
          = ('\n' :: (ind ++ [' ', ' '])) ++
            (itemsBody (e :: es) (ind ++ [' ', ' ']) ++ ('\n' :: (ind ++ (']' :: rest))))
          from rfl]
        rw [skipWs_ws_append _ (wsCons (wsExtend hind))]
        rw [hib, List.cons_append]
        exact skipWs_cons_not _ hws2
      simp only [hskip]
      rw [if_neg hbr2]
      rw [show c2 :: (tb ++ ('\n' :: (ind ++ (']' :: rest)))) =
          itemsBody (e :: es) (ind ++ [' ', ' ']) ++ ('\n' :: (ind ++ (']' :: rest)))
        from by rw [hib, List.cons_append]]
      rw [rt_parseItems e es (ind ++ [' ', ' ']) ind rest f (wsExtend hind) hind hlen]
  | Json.obj [], ind, rest, fuel, hind, hf, hsafe => by
    cases fuel with
    | zero => exact absurd hf (Nat.not_lt_zero _)
    | succ f =>
      rw [show stringifyVal (Json.obj []) ind = [lcurly, rcurly] from rfl]
      rw [show ([lcurly, rcurly] : List Char) ++ rest = lcurly :: (rcurly :: rest) from rfl]
      rw [parseValue_object_step]
      rw [skipWs_cons_not _ (by decide)]
      simp
  | Json.obj ((k, v) :: fs), ind, rest, fuel, hind, hf, hsafe => by
    cases fuel with
    | zero => exact absurd hf (Nat.not_lt_zero _)
    | succ f =>
      have hfb : ∃ tb, fieldsBody ((k, v) :: fs) (ind ++ [' ', ' ']) = '"' :: tb := by
        cases fs with
        | nil =>
          refine ⟨(k.toList.flatMap escapeChar ++ ['"']) ++
            (':' :: ' ' :: stringifyVal v (ind ++ [' ', ' '])), ?_⟩
          rw [show fieldsBody [(k, v)] (ind ++ [' ', ' ']) =
              quoteStr k ++ ':' :: ' ' :: stringifyVal v (ind ++ [' ', ' ']) from rfl]
          rw [show quoteStr k = '"' :: (k.toList.flatMap escapeChar ++ ['"']) from rfl]
          simp
        | cons kv2 fs2 =>
          refine ⟨(k.toList.flatMap escapeChar ++ ['"']) ++
            (':' :: ' ' :: (stringifyVal v (ind ++ [' ', ' ']) ++
              ',' :: '\n' :: ((ind ++ [' ', ' ']) ++
                fieldsBody (kv2 :: fs2) (ind ++ [' ', ' '])))), ?_⟩
          rw [show fieldsBody ((k, v) :: kv2 :: fs2) (ind ++ [' ', ' ']) =
              quoteStr k ++ ':' :: ' ' ::
                (stringifyVal v (ind ++ [' ', ' ']) ++ ',' :: '\n' ::
                  ((ind ++ [' ', ' ']) ++ fieldsBody (kv2 :: fs2) (ind ++ [' ', ' '])))
            from rfl]
          rw [show quoteStr k = '"' :: (k.toList.flatMap escapeChar ++ ['"']) from rfl]
          simp
      obtain ⟨tb, hfb⟩ := hfb
      have hlen : (fieldsBody ((k, v) :: fs) (ind ++ [' ', ' '])).length + 1 < f := by
        rw [show stringifyVal (Json.obj ((k, v) :: fs)) ind =
          lcurly :: '\n' :: ((ind ++ [' ', ' ']) ++
            (fieldsBody ((k, v) :: fs) (ind ++ [' ', ' ']) ++ '\n' :: (ind ++ [rcurly])))
          from rfl] at hf
        simp [List.length_append] at hf
        omega
      rw [show stringifyVal (Json.obj ((k, v) :: fs)) ind =
        lcurly :: '\n' :: ((ind ++ [' ', ' ']) ++
          (fieldsBody ((k, v) :: fs) (ind ++ [' ', ' ']) ++ '\n' :: (ind ++ [rcurly])))
        from rfl]
      rw [show (lcurly :: '\n' :: ((ind ++ [' ', ' ']) ++
          (fieldsBody ((k, v) :: fs) (ind ++ [' ', ' ']) ++ '\n' :: (ind ++ [rcurly]))))
            ++ rest
        = lcurly :: ('\n' :: ((ind ++ [' ', ' ']) ++
          (fieldsBody ((k, v) :: fs) (ind ++ [' ', ' ']) ++
            ('\n' :: (ind ++ (rcurly :: rest)))))) from by simp]
      rw [parseValue_object_step]
      have hskip : skipWs ('\n' :: ((ind ++ [' ', ' ']) ++
          (fieldsBody ((k, v) :: fs) (ind ++ [' ', ' ']) ++
            ('\n' :: (ind ++ (rcurly :: rest)))))) =
          '"' :: (tb ++ ('\n' :: (ind ++ (rcurly :: rest)))) := by
        rw [show ('\n' :: ((ind ++ [' ', ' ']) ++
            (fieldsBody ((k, v) :: fs) (ind ++ [' ', ' ']) ++
              ('\n' :: (ind ++ (rcurly :: rest))))))
          = ('\n' :: (ind ++ [' ', ' '])) ++
            (fieldsBody ((k, v) :: fs) (ind ++ [' ', ' ']) ++
              ('\n' :: (ind ++ (rcurly :: rest)))) from rfl]
        rw [skipWs_ws_append _ (wsCons (wsExtend hind))]
        rw [hfb, List.cons_append]
        exact skipWs_cons_not _ (by decide)
      simp only [hskip]
      rw [if_neg (by decide : ¬('"' = rcurly))]
      rw [show '"' :: (tb ++ ('\n' :: (ind ++ (rcurly :: rest)))) =
          fieldsBody ((k, v) :: fs) (ind ++ [' ', ' ']) ++
            ('\n' :: (ind ++ (rcurly :: rest)))
        from by rw [hfb, List.cons_append]]
      rw [rt_parseFields (k, v) fs (ind ++ [' ', ' ']) ind rest f (wsExtend hind) hind hlen]
termination_by v _ _ _ => sizeOf v
decreasing_by all_goals (simp; try omega)

theorem rt_parseItems :
    ∀ (e : Json) (es : List Json) (ind indOut rest : List Char) (fuel : Nat),
      (∀ c ∈ ind, isJsonWs c = true) →
      (∀ c ∈ indOut, isJsonWs c = true) →
      (itemsBody (e :: es) ind).length + 1 < fuel →
      parseItems fuel (itemsBody (e :: es) ind ++ ('\n' :: (indOut ++ (']' :: rest)))) =
        .ok (e :: es, rest)
  | e, [], ind, indOut, rest, fuel, hind, hindOut, hf => by
    cases fuel with
    | zero => exact absurd hf (Nat.not_lt_zero _)
    | succ f =>
      rw [show itemsBody [e] ind = stringifyVal e ind from rfl] at hf ⊢
      simp only [parseItems]
      rw [rt_parseValue e ind ('\n' :: (indOut ++ (']' :: rest))) f hind
        (by simp at hf; omega) rfl]
      have hskip : skipWs ('\n' :: (indOut ++ (']' :: rest))) = ']' :: rest := by
        rw [show ('\n' :: (indOut ++ (']' :: rest))) = ('\n' :: indOut) ++ (']' :: rest)
          from rfl]
        rw [skipWs_ws_append _ (wsCons hindOut)]
        exact skipWs_cons_not _ (by decide)
      simp [hskip]
  | e, e2 :: es2, ind, indOut, rest, fuel, hind, hindOut, hf => by
    cases fuel with
    | zero => exact absurd hf (Nat.not_lt_zero _)
    | succ f =>
      rw [show itemsBody (e :: e2 :: es2) ind =
        stringifyVal e ind ++ (',' :: '\n' :: (ind ++ itemsBody (e2 :: es2) ind)) from rfl]
        at hf ⊢
      have hf1 : (stringifyVal e ind).length < f := by
        simp [List.length_append] at hf
        omega
      have hf2 : (itemsBody (e2 :: es2) ind).length + 1 < f := by
        simp [List.length_append] at hf
        omega
      rw [List.append_assoc]
      rw [show ((',' :: '\n' :: (ind ++ itemsBody (e2 :: es2) ind)) ++
          ('\n' :: (indOut ++ (']' :: rest))))
        = ',' :: '\n' :: (ind ++ (itemsBody (e2 :: es2) ind ++
            ('\n' :: (indOut ++ (']' :: rest))))) from by simp]
      simp only [parseItems]
      rw [rt_parseValue e ind (',' :: '\n' :: (ind ++ (itemsBody (e2 :: es2) ind ++
        ('\n' :: (indOut ++ (']' :: rest)))))) f hind hf1 rfl]
      have hskip : skipWs (',' :: '\n' :: (ind ++ (itemsBody (e2 :: es2) ind ++
          ('\n' :: (indOut ++ (']' :: rest)))))) =
          ',' :: '\n' :: (ind ++ (itemsBody (e2 :: es2) ind ++
            ('\n' :: (indOut ++ (']' :: rest))))) :=
        skipWs_cons_not _ (by decide)
      simp only [hskip]
      have hrec : parseItems f ('\n' :: (ind ++ (itemsBody (e2 :: es2) ind ++
          ('\n' :: (indOut ++ (']' :: rest)))))) = .ok (e2 :: es2, rest) := by
        rw [show ('\n' :: (ind ++ (itemsBody (e2 :: es2) ind ++
            ('\n' :: (indOut ++ (']' :: rest))))))
          = ('\n' :: ind) ++ (itemsBody (e2 :: es2) ind ++
            ('\n' :: (indOut ++ (']' :: rest)))) from rfl]
        rw [parseItems_ws f _ (wsCons hind)]
        exact rt_parseItems e2 es2 ind indOut rest f hind hindOut hf2
      simp [hrec]
termination_by e es _ _ _ _ => 1 + sizeOf e + sizeOf es
decreasing_by all_goals (simp; try omega)

theorem rt_parseFields :
    ∀ (kv : String × Json) (fs : List (String × Json)) (ind indOut rest : List Char)
      (fuel : Nat),
      (∀ c ∈ ind, isJsonWs c = true) →
      (∀ c ∈ indOut, isJsonWs c = true) →
      (fieldsBody (kv :: fs) ind).length + 1 < fuel →
      parseFields fuel (fieldsBody (kv :: fs) ind ++ ('\n' :: (indOut ++ (rcurly :: rest))))
        = .ok (kv :: fs, rest)
  | (k, v), [], ind, indOut, rest, fuel, hind, hindOut, hf => by
    cases fuel with
    | zero => exact absurd hf (Nat.not_lt_zero _)
    | succ f =>
      rw [show fieldsBody [(k, v)] ind =
        quoteStr k ++ ':' :: ' ' :: stringifyVal v ind from rfl] at hf ⊢
      have hf1 : (stringifyVal v ind).length < f := by
        simp [List.length_append, quoteStr] at hf
        omega
      rw [show quoteStr k = '"' :: (k.toList.flatMap escapeChar ++ ['"']) from rfl]
      rw [show (('"' :: (k.toList.flatMap escapeChar ++ ['"'])) ++
          (':' :: ' ' :: stringifyVal v ind)) ++ ('\n' :: (indOut ++ (rcurly :: rest)))
        = '"' :: (k.toList.flatMap escapeChar ++ ('"' ::
            (':' :: (' ' :: (stringifyVal v ind ++
              ('\n' :: (indOut ++ (rcurly :: rest)))))))) from by simp]
      rw [parseFields_key_step]
      rw [show (' ' :: (stringifyVal v ind ++ ('\n' :: (indOut ++ (rcurly :: rest)))))
        = [' '] ++ (stringifyVal v ind ++ ('\n' :: (indOut ++ (rcurly :: rest))))
        from rfl]
      rw [parseValue_ws f _ (by intro c hc; rcases List.mem_singleton.mp hc with rfl; decide)]
      rw [rt_parseValue v ind ('\n' :: (indOut ++ (rcurly :: rest))) f hind hf1 rfl]
      have hskip : skipWs ('\n' :: (indOut ++ (rcurly :: rest))) = rcurly :: rest := by
        rw [show ('\n' :: (indOut ++ (rcurly :: rest)))
          = ('\n' :: indOut) ++ (rcurly :: rest) from rfl]
        rw [skipWs_ws_append _ (wsCons hindOut)]
        exact skipWs_cons_not _ (by decide)
      simp [hskip, show ¬(rcurly = ',') from by decide]
  | (k, v), kv2 :: fs2, ind, indOut, rest, fuel, hind, hindOut, hf => by
    cases fuel with
    | zero => exact absurd hf (Nat.not_lt_zero _)
    | succ f =>
      rw [show fieldsBody ((k, v) :: kv2 :: fs2) ind =
        quoteStr k ++ ':' :: ' ' ::
          (stringifyVal v ind ++ ',' :: '\n' :: (ind ++ fieldsBody (kv2 :: fs2) ind))
        from rfl] at hf ⊢
      have hf1 : (stringifyVal v ind).length < f := by
        simp [List.length_append, quoteStr] at hf
        omega
      have hf2 : (fieldsBody (kv2 :: fs2) ind).length + 1 < f := by
        simp [List.length_append, quoteStr] at hf
        omega
      rw [show quoteStr k = '"' :: (k.toList.flatMap escapeChar ++ ['"']) from rfl]
      rw [show (('"' :: (k.toList.flatMap escapeChar ++ ['"'])) ++
          (':' :: ' ' ::
            (stringifyVal v ind ++ ',' :: '\n' :: (ind ++ fieldsBody (kv2 :: fs2) ind))))
            ++ ('\n' :: (indOut ++ (rcurly :: rest)))
        = '"' :: (k.toList.flatMap escapeChar ++ ('"' ::
            (':' :: (' ' :: (stringifyVal v ind ++
              (',' :: '\n' :: (ind ++ (fieldsBody (kv2 :: fs2) ind ++
                ('\n' :: (indOut ++ (rcurly :: rest))))))))))) from by simp]
      rw [parseFields_key_step]
      rw [show (' ' :: (stringifyVal v ind ++
          (',' :: '\n' :: (ind ++ (fieldsBody (kv2 :: fs2) ind ++
            ('\n' :: (indOut ++ (rcurly :: rest))))))))
        = [' '] ++ (stringifyVal v ind ++
          (',' :: '\n' :: (ind ++ (fieldsBody (kv2 :: fs2) ind ++
            ('\n' :: (indOut ++ (rcurly :: rest))))))) from rfl]
      rw [parseValue_ws f _ (by intro c hc; rcases List.mem_singleton.mp hc with rfl; decide)]
      rw [rt_parseValue v ind (',' :: '\n' :: (ind ++ (fieldsBody (kv2 :: fs2) ind ++
        ('\n' :: (indOut ++ (rcurly :: rest)))))) f hind hf1 rfl]
      have hskip : skipWs (',' :: '\n' :: (ind ++ (fieldsBody (kv2 :: fs2) ind ++
          ('\n' :: (indOut ++ (rcurly :: rest)))))) =
          ',' :: '\n' :: (ind ++ (fieldsBody (kv2 :: fs2) ind ++
            ('\n' :: (indOut ++ (rcurly :: rest))))) :=
        skipWs_cons_not _ (by decide)
      simp only [hskip]
      have hrec : parseFields f ('\n' :: (ind ++ (fieldsBody (kv2 :: fs2) ind ++
          ('\n' :: (indOut ++ (rcurly :: rest)))))) = .ok (kv2 :: fs2, rest) := by
        rw [show ('\n' :: (ind ++ (fieldsBody (kv2 :: fs2) ind ++
            ('\n' :: (indOut ++ (rcurly :: rest))))))
          = ('\n' :: ind) ++ (fieldsBody (kv2 :: fs2) ind ++
            ('\n' :: (indOut ++ (rcurly :: rest)))) from rfl]
        rw [parseFields_ws f _ (wsCons hind)]
        exact rt_parseFields kv2 fs2 ind indOut rest f hind hindOut hf2
      simp [hrec]
termination_by kv fs _ _ _ _ => 1 + sizeOf kv + sizeOf fs
decreasing_by all_goals (simp; try omega)

end

end JsonRoundtrip

section ClaimTheoremsD

open NodeFs Js Filets

/-- `JSON.parse` inverts `JSON.stringify(-, null, 2)` on every value. -/
theorem parseJson_stringify (v : Json) : parseJson (stringifyJson v) = .ok v := by
  have hmem : ∀ c ∈ ([] : List Char), isJsonWs c = true := by
    intro c hc
    cases hc
  have h := rt_parseValue v [] [] ((stringifyVal v []).length + 1) hmem (by omega) rfl
  rw [List.append_nil] at h
  unfold parseJson stringifyJson
  rw [show (String.mk (stringifyVal v [])).toList = stringifyVal v [] from rfl]
  rw [h]
  rfl

/-- **C3.** Writing any JSON value with `writeJsonFile` and reading the same
path back with `readJsonFile` returns the original value: the file holds
`JSON.stringify(data, null, 2)` and `JSON.parse` inverts it. -/
theorem C3_write_read_json (fs : FS) (p : String) (v : Json) (fs2 : FS)
    (h : writeJsonFile fs p v = .ok fs2) :
    readJsonFile fs2 p = .ok v := by
  have hw : ∃ fs1, writeTextFile fs1 p (stringifyJson v) = .ok fs2 := by
    unfold writeJsonFile at h
    cases he : ensureDirectoryExists fs (getDirectoryName p) with
    | error e =>
      rw [he] at h
      simp [Bind.bind, Except.bind] at h
    | ok fs1 =>
      rw [he] at h
      simp only [Bind.bind, Except.bind] at h
      cases hwt : writeTextFile fs1 p (stringifyJson v) with
      | error e =>
        rw [hwt] at h
        simp at h
      | ok fs3 =>
        rw [hwt] at h
        simp at h
        exact ⟨fs1, by rw [hwt, h]⟩
  obtain ⟨fs1, hw⟩ := hw
  have hread := writeTextFile_reads hw
  simp [readJsonFile, Bind.bind, Except.bind, hread, parseJson_stringify]

/-- Witness for **C3**: writing `{"a": 1}` to `/data/conf.json` on an empty
file system stores the two-space-indented text and reads back as the same
value. -/
theorem C3_witness :
    readJsonFile
        ⟨[("/data/conf.json", FsNode.fileNode "\x7b\n  \"a\": 1\n\x7d"),
          ("/", FsNode.dirNode), ("/data", FsNode.dirNode)]⟩ "/data/conf.json" =
      .ok (Json.obj [("a", Json.num 1)]) :=
  C3_write_read_json ⟨[]⟩ "/data/conf.json" (Json.obj [("a", Json.num 1)]) _ (by decide)

end ClaimTheoremsD
